import Mathlib

set_option maxHeartbeats 1000000

/-!
Verification of the TmsAutomation repository against its specification.

The repository contains two verifiable parts:

1. The Phase Pipeline Orchestrator (spec sections 2-7).  The repository ships
   only its design document (`docs/tms-agent/maintenance-agent/MAINTENANCE_AGENT.md`,
   a playbook of prose rules); no orchestrator implementation exists under
   `src/`.  All orchestrator definitions below are therefore modelled from the
   spec, as marked in their doc comments.

2. The authentication bootstrap `src/setup/global-setup.ts`, embedded directly
   from the TypeScript source.  Strings handled by that script are modelled as
   byte lists (`Bytes`), JSON values as the inductive `Json`, and the builtin
   library functions it calls (`JSON.stringify`, `JSON.parse`, base64 through
   `Buffer`) as executable Lean functions over those types.
-/

namespace Tms

/-- Modelled from the spec: `PhaseStatus` is enumerated
`pending | running | awaiting-approval | approved | failed | skipped` (section 3). -/
inductive PhaseStatus where
  | pending
  | running
  | awaitingApproval
  | approved
  | failed
  | skipped
deriving DecidableEq, Repr

/-- Modelled from the spec: the error taxonomy of section 7. -/
inductive OrchError where
  | NotFound
  | MissingState
  | CorruptState
  | MissingArtifact
  | PrecedenceViolation
  | InvalidTransition
  | PhaseExecutionFailure
deriving DecidableEq, Repr

/-- Modelled from the spec: decision kinds `approve | revise | skip` of the
decision log (section 6, StateRecord schema). -/
inductive DecisionKind where
  | approve
  | revise
  | skip
deriving DecidableEq, Repr

/-- Modelled from the spec: one entry of a run's decision log
`{phaseIndex, decision, timestamp, optional feedback}` (section 3). -/
structure Decision where
  phaseIndex : Nat
  decision : DecisionKind
  timestamp : Nat
  feedback : Option String
deriving DecidableEq, Repr

/-- Modelled from the spec: per-phase slot of the StateRecord schema
`{ status: enum, startedAt, endedAt }` (section 6). -/
structure PhaseEntry where
  status : PhaseStatus
  startedAt : Option Nat
  endedAt : Option Nat
deriving DecidableEq, Repr

/-- Modelled from the spec: `StateRecord` is the per-run snapshot
`{ currentPhase, phases: 5 entries, decisions }` (sections 3 and 6). -/
structure StateRecord where
  currentPhase : Nat
  phases : Fin 5 → PhaseEntry
  decisions : List Decision

/-- Modelled from the spec: an `Artifact` is a content blob plus a short
summary (section 3). -/
structure Artifact where
  content : String
  summary : String
deriving DecidableEq, Repr

/-- Modelled from the spec: the in-store view of one run: its identifier, its
StateRecord, its artifacts keyed by phase index, and whether the run has been
marked terminal (section 3, Lifecycle; section 4.5, quick mode). -/
structure RunState where
  runId : String
  record : StateRecord
  artifacts : Fin 5 → Option Artifact
  terminal : Bool

/-- Modelled from the spec: Phase Executor input
`{ runId, phaseIndex, priorArtifacts, feedback? }` (section 6). -/
structure ExecInput where
  runId : String
  phaseIndex : Nat
  priorArtifacts : Fin 5 → Option Artifact
  feedback : Option String

/-- Modelled from the spec: Phase Executor output
`{ artifactContent, summary }`; it may fail, modelled by `Option` (section 6). -/
structure ExecOutput where
  artifactContent : String
  summary : String

/-- Modelled from the spec: the opaque synchronous Phase Executor collaborator. -/
def Exec : Type := ExecInput → Option ExecOutput

/-- Modelled from the spec: result of one orchestrator operation: the error
surfaced to the caller (if any), the run state afterwards, and the ordered
list of StateRecords persisted during the operation. -/
structure OpResult where
  err : Option OrchError
  state : RunState
  writes : List StateRecord

/-- Status of phase `k` in run state `s`. -/
def statusOf (s : RunState) (k : Fin 5) : PhaseStatus :=
  (s.record.phases k).status

/-- The phase index immediately preceding `k` (clamped at 0). -/
def prevIdx (k : Fin 5) : Fin 5 :=
  ⟨k.val - 1, by have := k.isLt; omega⟩

/-- A status counting as "active": `running` or `awaiting-approval` (section 3). -/
def isActive : PhaseStatus → Bool
  | .running => true
  | .awaitingApproval => true
  | _ => false

/-- A status counting as "running or beyond": the phase has actually been
started (everything except `pending` and `skipped`, which never pass through
`running`). -/
def isStarted : PhaseStatus → Bool
  | .pending => false
  | .skipped => false
  | _ => true

/-- A predecessor status allowing the next phase to start: `approved` or
`skipped` (section 3, invariant 1). -/
def okPrev : PhaseStatus → Bool
  | .approved => true
  | .skipped => true
  | _ => false

/-- Replace the entry of phase `k` in a StateRecord. -/
def setEntry (r : StateRecord) (k : Fin 5) (e : PhaseEntry) : StateRecord :=
  { r with phases := Function.update r.phases k e }

/-- Append a decision to a StateRecord's decision log. -/
def addDecision (r : StateRecord) (d : Decision) : StateRecord :=
  { r with decisions := r.decisions ++ [d] }

/-- Modelled from the spec: the prior artifacts (all phases strictly before
`k`) passed to the Phase Executor (section 4.4, start_phase). -/
def priorArtifacts (s : RunState) (k : Fin 5) : Fin 5 → Option Artifact :=
  fun j => if j < k then s.artifacts j else none

/-- Modelled from the spec: `create_run` initializes an empty StateRecord with
all phases `pending` (section 4.1). -/
def create_run (id : String) : RunState :=
  { runId := id
    record := { currentPhase := 0, phases := fun _ => ⟨.pending, none, none⟩, decisions := [] }
    artifacts := fun _ => none
    terminal := false }

/-- The persisted record after phase `k` enters `running` (section 4.4). -/
def runningRec (s : RunState) (k : Fin 5) (t : Nat) : StateRecord :=
  { setEntry s.record k ⟨.running, some t, none⟩ with currentPhase := k.val + 1 }

/-- The persisted record after phase `k` reaches `awaiting-approval`. -/
def doneRec (s : RunState) (k : Fin 5) (t : Nat) : StateRecord :=
  setEntry (runningRec s k t) k ⟨.awaitingApproval, some t, some t⟩

/-- The persisted record after the executor fails and phase `k` is `failed`. -/
def failedRec (s : RunState) (k : Fin 5) (t : Nat) : StateRecord :=
  setEntry (runningRec s k t) k ⟨.failed, some t, some t⟩

/-- Modelled from the spec: `start_phase(run, phaseIndex)` (section 4.4).
Preconditions: phase index is 1 (index 0 here), or the immediately preceding
phase is `approved` or `skipped`, unless an explicit-phase `override` is used;
violating this fails `PrecedenceViolation` with no state change.  A terminal
run accepts no further advancement (section 3, Lifecycle), and only a
`pending` or `failed` phase may be (re)started (section 3 lifecycle
transitions; section 7, retry of a failed phase).  On success the phase goes
to `running` (persisted), the Phase Executor runs synchronously, and the phase
ends `awaiting-approval` with a saved artifact, or `failed` with
`PhaseExecutionFailure` surfaced. -/
def start_phase (exec : Exec) (override : Bool) (fb : Option String) (t : Nat)
    (k : Fin 5) (s : RunState) : OpResult :=
  if override = false ∧ 0 < k.val ∧ okPrev (statusOf s (prevIdx k)) = false then
    ⟨some .PrecedenceViolation, s, []⟩
  else if s.terminal then
    ⟨some .InvalidTransition, s, []⟩
  else if ¬ (statusOf s k = .pending ∨ statusOf s k = .failed) then
    ⟨some .InvalidTransition, s, []⟩
  else
    match exec ⟨s.runId, k.val + 1, priorArtifacts s k, fb⟩ with
    | some out =>
      ⟨none,
       { s with record := doneRec s k t,
                artifacts := Function.update s.artifacts k (some ⟨out.artifactContent, out.summary⟩) },
       [runningRec s k t, doneRec s k t]⟩
    | none =>
      ⟨some .PhaseExecutionFailure, { s with record := failedRec s k t },
       [runningRec s k t, failedRec s k t]⟩

/-- The persisted record after phase `k` is approved. -/
def approveRec (s : RunState) (k : Fin 5) (t : Nat) : StateRecord :=
  addDecision
    (setEntry s.record k { s.record.phases k with status := .approved, endedAt := some t })
    ⟨k.val + 1, .approve, t, none⟩

/-- Modelled from the spec: `approve_phase(run, phaseIndex)`: precondition is
status `awaiting-approval`, otherwise `InvalidTransition` with no state
change; on success the status becomes `approved` and, for phase 5 (index 4),
the run is marked terminal (section 4.4). -/
def approve_phase (t : Nat) (k : Fin 5) (s : RunState) : OpResult :=
  if ¬ statusOf s k = .awaitingApproval then
    ⟨some .InvalidTransition, s, []⟩
  else
    ⟨none, { s with record := approveRec s k t, terminal := s.terminal || decide (k.val = 4) },
     [approveRec s k t]⟩

/-- The persisted record after a revision of phase `k` goes back to `running`
(the revise decision is logged with its feedback). -/
def reviseRunningRec (s : RunState) (k : Fin 5) (t : Nat) (fb : String) : StateRecord :=
  addDecision (setEntry s.record k { s.record.phases k with status := .running, endedAt := none })
    ⟨k.val + 1, .revise, t, some fb⟩

/-- The persisted record after a revision of phase `k` re-enters `awaiting-approval`. -/
def reviseDoneRec (s : RunState) (k : Fin 5) (t : Nat) (fb : String) : StateRecord :=
  setEntry (reviseRunningRec s k t fb) k
    { s.record.phases k with status := .awaitingApproval, endedAt := some t }

/-- The persisted record after a revision's executor call fails. -/
def reviseFailedRec (s : RunState) (k : Fin 5) (t : Nat) (fb : String) : StateRecord :=
  setEntry (reviseRunningRec s k t fb) k
    { s.record.phases k with status := .failed, endedAt := some t }

/-- Modelled from the spec: `request_revision(run, phaseIndex, feedback)`:
precondition is status `awaiting-approval`, otherwise `InvalidTransition` with
no state change; on success the status goes back to `running` (persisted), the
Phase Executor is re-invoked with the feedback appended to its inputs, the
superseding artifact replaces the prior one and the phase re-enters
`awaiting-approval` (section 4.4). -/
def request_revision (exec : Exec) (fb : String) (t : Nat) (k : Fin 5) (s : RunState) : OpResult :=
  if ¬ statusOf s k = .awaitingApproval then
    ⟨some .InvalidTransition, s, []⟩
  else
    match exec ⟨s.runId, k.val + 1, priorArtifacts s k, some fb⟩ with
    | some out =>
      ⟨none,
       { s with record := reviseDoneRec s k t fb,
                artifacts := Function.update s.artifacts k (some ⟨out.artifactContent, out.summary⟩) },
       [reviseRunningRec s k t fb, reviseDoneRec s k t fb]⟩
    | none =>
      ⟨some .PhaseExecutionFailure, { s with record := reviseFailedRec s k t fb },
       [reviseRunningRec s k t fb, reviseFailedRec s k t fb]⟩

/-- The persisted record after phases later than `k` are marked `skipped`
(the skip decision is logged). -/
def skipRec (s : RunState) (k : Fin 5) (t : Nat) : StateRecord :=
  addDecision
    { s.record with
      phases := fun j => if k < j then { s.record.phases j with status := .skipped }
                         else s.record.phases j }
    ⟨k.val + 1, .skip, t, none⟩

/-- Modelled from the spec: `skip_phase(run, phaseIndex)` transitions
`pending -> skipped` for all phases after the one actually executed and marks
the run terminal (section 4.4; section 4.5, quick mode).  It requires the
executed phase to have actually started and every later phase to still be
`pending`. -/
def skip_phase (t : Nat) (k : Fin 5) (s : RunState) : OpResult :=
  if s.terminal then
    ⟨some .InvalidTransition, s, []⟩
  else if isStarted (statusOf s k) = false then
    ⟨some .InvalidTransition, s, []⟩
  else if ¬ (∀ j : Fin 5, k < j → statusOf s j = .pending) then
    ⟨some .InvalidTransition, s, []⟩
  else
    ⟨none, { s with record := skipRec s k t, terminal := true }, [skipRec s k t]⟩

/-- Modelled from the spec: one step of a run's state machine: any orchestrator
operation applied with any arguments and any Phase Executor behaviour.
Explicit-phase overrides are excluded: the override trust model is the open
question of section 9, outside the validated step relation. -/
inductive Step : RunState → RunState → Prop where
  | start (exec : Exec) (fb : Option String) (t : Nat) (k : Fin 5) (s : RunState) :
      Step s (start_phase exec false fb t k s).state
  | approve (t : Nat) (k : Fin 5) (s : RunState) :
      Step s (approve_phase t k s).state
  | revise (exec : Exec) (fb : String) (t : Nat) (k : Fin 5) (s : RunState) :
      Step s (request_revision exec fb t k s).state
  | skip (t : Nat) (k : Fin 5) (s : RunState) :
      Step s (skip_phase t k s).state

/-- A run state reachable from a freshly created run by orchestrator steps. -/
def Reachable (id : String) (s : RunState) : Prop :=
  Relation.ReflTransGen Step (create_run id) s

/-- The inductive invariant of a run's state machine: precedence (a started
phase has its predecessor `approved` or `skipped`), uniqueness (at most one
phase `running` or `awaiting-approval`), and skipped phases only occur in
terminal runs. -/
structure Inv (s : RunState) : Prop where
  prec : ∀ k : Fin 5, 0 < k.val → isStarted (statusOf s k) = true →
    okPrev (statusOf s (prevIdx k)) = true
  uniq : ∀ j k : Fin 5, isActive (statusOf s j) = true → isActive (statusOf s k) = true → j = k
  skipTerm : ∀ k : Fin 5, statusOf s k = .skipped → s.terminal = true

theorem isStarted_of_isActive {st : PhaseStatus} (h : isActive st = true) :
    isStarted st = true := by
  cases st <;> simp_all [isActive, isStarted]

theorem approved_of_okPrev {st : PhaseStatus} (h : okPrev st = true)
    (h2 : st ≠ .skipped) : st = .approved := by
  cases st <;> simp_all [okPrev]

@[simp] theorem setEntry_phases (r : StateRecord) (k : Fin 5) (e : PhaseEntry) (j : Fin 5) :
    (setEntry r k e).phases j = if j = k then e else r.phases j := by
  simp [setEntry, Function.update_apply]

@[simp] theorem addDecision_phases (r : StateRecord) (d : Decision) (j : Fin 5) :
    (addDecision r d).phases j = r.phases j := rfl

/-- In a run satisfying the precedence invariant with no skipped phase, every
phase below a started phase is `approved`. -/
theorem chain_approved (s : RunState)
    (hprec : ∀ k : Fin 5, 0 < k.val → isStarted (statusOf s k) = true →
      okPrev (statusOf s (prevIdx k)) = true)
    (hns : ∀ j : Fin 5, statusOf s j ≠ .skipped) :
    ∀ j : Fin 5, isStarted (statusOf s j) = true →
      ∀ i : Fin 5, i < j → statusOf s i = .approved := by
  suffices H : ∀ n : Nat, ∀ j : Fin 5, j.val ≤ n → isStarted (statusOf s j) = true →
      ∀ i : Fin 5, i < j → statusOf s i = .approved by
    exact fun j hj i hij => H 5 j (by omega) hj i hij
  intro n
  induction n with
  | zero =>
    intro j hj _ i hij
    rw [Fin.lt_def] at hij
    omega
  | succ n ih =>
    intro j hj hst i hij
    rw [Fin.lt_def] at hij
    have hj0 : 0 < j.val := by omega
    have hok := hprec j hj0 hst
    have happ : statusOf s (prevIdx j) = .approved :=
      approved_of_okPrev hok (hns (prevIdx j))
    by_cases hi : i = prevIdx j
    · rw [hi]; exact happ
    · have hlt : i < prevIdx j := by
        rw [Fin.lt_def]
        simp only [prevIdx]
        have : i.val ≠ j.val - 1 := fun hc => hi (Fin.ext (by simp [prevIdx, hc]))
        omega
      have hstp : isStarted (statusOf s (prevIdx j)) = true := by
        rw [happ]; rfl
      exact ih (prevIdx j) (by simp [prevIdx]; omega) hstp i hlt

/-- No phase of a non-terminal invariant run is skipped. -/
theorem noskip_of_inv {s : RunState} (h : Inv s) (hT : s.terminal = false) :
    ∀ j : Fin 5, statusOf s j ≠ .skipped :=
  fun j hsk => by rw [h.skipTerm j hsk] at hT; cases hT

theorem inv_create (id : String) : Inv (create_run id) := by
  refine ⟨?_, ?_, ?_⟩
  · intro k _ hst
    simp [statusOf, create_run, isStarted] at hst
  · intro j k hj _
    simp [statusOf, create_run, isActive] at hj
  · intro k hsk
    simp [statusOf, create_run] at hsk

/-- Preservation of the invariant by any operation that rewrites the status of
a single phase `k`, provided phase `k` was not in an `approved`/`skipped`
state before, no other phase was active, and `k`'s predecessor allows it. -/
theorem inv_point (s s' : RunState) (k : Fin 5) (st2 : PhaseStatus) (hInv : Inv s)
    (hstat : ∀ j : Fin 5, statusOf s' j = if j = k then st2 else statusOf s j)
    (hTmono : s.terminal = true → s'.terminal = true)
    (hst2ns : st2 ≠ .skipped)
    (hkold : okPrev (statusOf s k) = false)
    (hnoother : ∀ j : Fin 5, j ≠ k → isActive (statusOf s j) = false)
    (hprevk : 0 < k.val → okPrev (statusOf s (prevIdx k)) = true) :
    Inv s' := by
  have hprevk_ne : 0 < k.val → prevIdx k ≠ k := by
    intro hk hc
    have : (prevIdx k).val = k.val := by rw [hc]
    simp [prevIdx] at this
    omega
  refine ⟨?_, ?_, ?_⟩
  · intro j hj hst
    by_cases hjk : j = k
    · subst hjk
      have hne := hprevk_ne hj
      rw [hstat (prevIdx j), if_neg hne]
      exact hprevk hj
    · rw [hstat j, if_neg hjk] at hst
      have hok := hInv.prec j hj hst
      by_cases hpk : prevIdx j = k
      · rw [hpk, hkold] at hok
        cases hok
      · rw [hstat (prevIdx j), if_neg hpk]
        exact hok
  · intro i j hi hj
    by_cases hik : i = k
    · by_cases hjk : j = k
      · rw [hik, hjk]
      · rw [hstat j, if_neg hjk] at hj
        rw [hnoother j hjk] at hj
        cases hj
    · rw [hstat i, if_neg hik] at hi
      rw [hnoother i hik] at hi
      cases hi
  · intro j hsk
    by_cases hjk : j = k
    · rw [hstat j, if_pos hjk] at hsk
      exact absurd hsk hst2ns
    · rw [hstat j, if_neg hjk] at hsk
      exact hTmono (hInv.skipTerm j hsk)

/-- In a non-terminal invariant state where phase `k` may be started
(`pending` or `failed`, predecessor check passed), no phase is active at all. -/
theorem no_active_of_startable (s : RunState) (h : Inv s) (k : Fin 5)
    (hT : s.terminal = false)
    (hks : statusOf s k = .pending ∨ statusOf s k = .failed)
    (hprev : 0 < k.val → okPrev (statusOf s (prevIdx k)) = true) :
    ∀ j : Fin 5, isActive (statusOf s j) = false := by
  have hns := noskip_of_inv h hT
  intro j
  by_contra hc
  have hj : isActive (statusOf s j) = true := by
    revert hc; cases statusOf s j <;> simp [isActive]
  have hstj := isStarted_of_isActive hj
  rcases lt_trichotomy j k with hlt | heq | hgt
  · have hk0 : 0 < k.val := by rw [Fin.lt_def] at hlt; omega
    have happ : statusOf s (prevIdx k) = .approved :=
      approved_of_okPrev (hprev hk0) (hns _)
    by_cases hjp : j = prevIdx k
    · rw [hjp, happ] at hj
      simp [isActive] at hj
    · have hlt2 : j < prevIdx k := by
        rw [Fin.lt_def] at hlt ⊢
        simp only [prevIdx]
        have : j.val ≠ k.val - 1 := by
          intro hc2
          exact hjp (Fin.ext (by simp [prevIdx, hc2]))
        omega
      have happst : isStarted (statusOf s (prevIdx k)) = true := by rw [happ]; rfl
      have := chain_approved s h.prec hns (prevIdx k) happst j hlt2
      rw [this] at hj
      simp [isActive] at hj
  · subst heq
    rcases hks with hp | hp <;> rw [hp] at hj <;> simp [isActive] at hj
  · have := chain_approved s h.prec hns j hstj k hgt
    rcases hks with hp | hp <;> rw [this] at hp <;> cases hp

theorem bool_eq_true_of_ne_false {b : Bool} (h : ¬ b = false) : b = true := by
  cases b <;> simp_all

theorem bool_eq_true_of_not_eq_false {b : Bool} (h : ¬ b = true) : b = false := by
  cases b <;> simp_all

@[simp] theorem runningRec_phases (s : RunState) (k : Fin 5) (t : Nat) (j : Fin 5) :
    (runningRec s k t).phases j =
      if j = k then ⟨.running, some t, none⟩ else s.record.phases j := by
  simp [runningRec]

@[simp] theorem doneRec_phases (s : RunState) (k : Fin 5) (t : Nat) (j : Fin 5) :
    (doneRec s k t).phases j =
      if j = k then ⟨.awaitingApproval, some t, some t⟩ else s.record.phases j := by
  by_cases hjk : j = k <;> simp [doneRec, hjk]

@[simp] theorem failedRec_phases (s : RunState) (k : Fin 5) (t : Nat) (j : Fin 5) :
    (failedRec s k t).phases j =
      if j = k then ⟨.failed, some t, some t⟩ else s.record.phases j := by
  by_cases hjk : j = k <;> simp [failedRec, hjk]

@[simp] theorem approveRec_phases (s : RunState) (k : Fin 5) (t : Nat) (j : Fin 5) :
    (approveRec s k t).phases j =
      if j = k then { s.record.phases k with status := .approved, endedAt := some t }
      else s.record.phases j := by
  simp [approveRec]

@[simp] theorem reviseRunningRec_phases (s : RunState) (k : Fin 5) (t : Nat) (fb : String)
    (j : Fin 5) :
    (reviseRunningRec s k t fb).phases j =
      if j = k then { s.record.phases k with status := .running, endedAt := none }
      else s.record.phases j := by
  simp [reviseRunningRec]

@[simp] theorem reviseDoneRec_phases (s : RunState) (k : Fin 5) (t : Nat) (fb : String)
    (j : Fin 5) :
    (reviseDoneRec s k t fb).phases j =
      if j = k then { s.record.phases k with status := .awaitingApproval, endedAt := some t }
      else s.record.phases j := by
  by_cases hjk : j = k <;> simp [reviseDoneRec, hjk]

@[simp] theorem reviseFailedRec_phases (s : RunState) (k : Fin 5) (t : Nat) (fb : String)
    (j : Fin 5) :
    (reviseFailedRec s k t fb).phases j =
      if j = k then { s.record.phases k with status := .failed, endedAt := some t }
      else s.record.phases j := by
  by_cases hjk : j = k <;> simp [reviseFailedRec, hjk]

@[simp] theorem skipRec_phases (s : RunState) (k : Fin 5) (t : Nat) (j : Fin 5) :
    (skipRec s k t).phases j =
      if k < j then { s.record.phases j with status := .skipped }
      else s.record.phases j := rfl

theorem start_phase_pv (exec : Exec) (ov : Bool) (fb : Option String) (t : Nat) (k : Fin 5)
    (s : RunState)
    (h1 : ov = false ∧ 0 < k.val ∧ okPrev (statusOf s (prevIdx k)) = false) :
    start_phase exec ov fb t k s = ⟨some .PrecedenceViolation, s, []⟩ := by
  unfold start_phase
  rw [if_pos h1]

theorem start_phase_it_terminal (exec : Exec) (ov : Bool) (fb : Option String) (t : Nat)
    (k : Fin 5) (s : RunState)
    (h1 : ¬ (ov = false ∧ 0 < k.val ∧ okPrev (statusOf s (prevIdx k)) = false))
    (h2 : s.terminal = true) :
    start_phase exec ov fb t k s = ⟨some .InvalidTransition, s, []⟩ := by
  unfold start_phase
  rw [if_neg h1, if_pos h2]

theorem start_phase_it_status (exec : Exec) (ov : Bool) (fb : Option String) (t : Nat)
    (k : Fin 5) (s : RunState)
    (h1 : ¬ (ov = false ∧ 0 < k.val ∧ okPrev (statusOf s (prevIdx k)) = false))
    (h2 : s.terminal = false)
    (h3 : ¬ (statusOf s k = .pending ∨ statusOf s k = .failed)) :
    start_phase exec ov fb t k s = ⟨some .InvalidTransition, s, []⟩ := by
  unfold start_phase
  rw [if_neg h1, if_neg (by rw [h2]; simp), if_pos h3]

theorem start_phase_ok (exec : Exec) (ov : Bool) (fb : Option String) (t : Nat)
    (k : Fin 5) (s : RunState) (out : ExecOutput)
    (h1 : ¬ (ov = false ∧ 0 < k.val ∧ okPrev (statusOf s (prevIdx k)) = false))
    (h2 : s.terminal = false)
    (h3 : statusOf s k = .pending ∨ statusOf s k = .failed)
    (hexec : exec ⟨s.runId, k.val + 1, priorArtifacts s k, fb⟩ = some out) :
    start_phase exec ov fb t k s =
      ⟨none,
       { s with record := doneRec s k t,
                artifacts := Function.update s.artifacts k
                  (some ⟨out.artifactContent, out.summary⟩) },
       [runningRec s k t, doneRec s k t]⟩ := by
  unfold start_phase
  rw [if_neg h1, if_neg (by rw [h2]; simp), if_neg (not_not_intro h3), hexec]

theorem start_phase_fail (exec : Exec) (ov : Bool) (fb : Option String) (t : Nat)
    (k : Fin 5) (s : RunState)
    (h1 : ¬ (ov = false ∧ 0 < k.val ∧ okPrev (statusOf s (prevIdx k)) = false))
    (h2 : s.terminal = false)
    (h3 : statusOf s k = .pending ∨ statusOf s k = .failed)
    (hexec : exec ⟨s.runId, k.val + 1, priorArtifacts s k, fb⟩ = none) :
    start_phase exec ov fb t k s =
      ⟨some .PhaseExecutionFailure, { s with record := failedRec s k t },
       [runningRec s k t, failedRec s k t]⟩ := by
  unfold start_phase
  rw [if_neg h1, if_neg (by rw [h2]; simp), if_neg (not_not_intro h3), hexec]

theorem approve_phase_it (t : Nat) (k : Fin 5) (s : RunState)
    (h : ¬ statusOf s k = .awaitingApproval) :
    approve_phase t k s = ⟨some .InvalidTransition, s, []⟩ := by
  unfold approve_phase
  rw [if_pos h]

theorem approve_phase_ok (t : Nat) (k : Fin 5) (s : RunState)
    (h : statusOf s k = .awaitingApproval) :
    approve_phase t k s =
      ⟨none,
       { s with record := approveRec s k t, terminal := s.terminal || decide (k.val = 4) },
       [approveRec s k t]⟩ := by
  unfold approve_phase
  rw [if_neg (not_not_intro h)]

theorem request_revision_it (exec : Exec) (fb : String) (t : Nat) (k : Fin 5) (s : RunState)
    (h : ¬ statusOf s k = .awaitingApproval) :
    request_revision exec fb t k s = ⟨some .InvalidTransition, s, []⟩ := by
  unfold request_revision
  rw [if_pos h]

theorem request_revision_ok (exec : Exec) (fb : String) (t : Nat) (k : Fin 5) (s : RunState)
    (out : ExecOutput) (h : statusOf s k = .awaitingApproval)
    (hexec : exec ⟨s.runId, k.val + 1, priorArtifacts s k, some fb⟩ = some out) :
    request_revision exec fb t k s =
      ⟨none,
       { s with record := reviseDoneRec s k t fb,
                artifacts := Function.update s.artifacts k
                  (some ⟨out.artifactContent, out.summary⟩) },
       [reviseRunningRec s k t fb, reviseDoneRec s k t fb]⟩ := by
  unfold request_revision
  rw [if_neg (not_not_intro h), hexec]

theorem request_revision_fail (exec : Exec) (fb : String) (t : Nat) (k : Fin 5) (s : RunState)
    (h : statusOf s k = .awaitingApproval)
    (hexec : exec ⟨s.runId, k.val + 1, priorArtifacts s k, some fb⟩ = none) :
    request_revision exec fb t k s =
      ⟨some .PhaseExecutionFailure, { s with record := reviseFailedRec s k t fb },
       [reviseRunningRec s k t fb, reviseFailedRec s k t fb]⟩ := by
  unfold request_revision
  rw [if_neg (not_not_intro h), hexec]

theorem skip_phase_it_terminal (t : Nat) (k : Fin 5) (s : RunState)
    (h1 : s.terminal = true) :
    skip_phase t k s = ⟨some .InvalidTransition, s, []⟩ := by
  unfold skip_phase
  rw [if_pos h1]

theorem skip_phase_it_notstarted (t : Nat) (k : Fin 5) (s : RunState)
    (h1 : s.terminal = false) (h2 : isStarted (statusOf s k) = false) :
    skip_phase t k s = ⟨some .InvalidTransition, s, []⟩ := by
  unfold skip_phase
  rw [if_neg (by rw [h1]; simp), if_pos h2]

theorem skip_phase_it_later (t : Nat) (k : Fin 5) (s : RunState)
    (h1 : s.terminal = false) (h2 : isStarted (statusOf s k) = true)
    (h3 : ¬ (∀ j : Fin 5, k < j → statusOf s j = .pending)) :
    skip_phase t k s = ⟨some .InvalidTransition, s, []⟩ := by
  unfold skip_phase
  rw [if_neg (by rw [h1]; simp), if_neg (by rw [h2]; simp), if_pos h3]

theorem skip_phase_ok (t : Nat) (k : Fin 5) (s : RunState)
    (h1 : s.terminal = false) (h2 : isStarted (statusOf s k) = true)
    (h3 : ∀ j : Fin 5, k < j → statusOf s j = .pending) :
    skip_phase t k s =
      ⟨none, { s with record := skipRec s k t, terminal := true }, [skipRec s k t]⟩ := by
  unfold skip_phase
  rw [if_neg (by rw [h1]; simp), if_neg (by rw [h2]; simp), if_neg (not_not_intro h3)]

theorem inv_start_phase (exec : Exec) (fb : Option String) (t : Nat) (k : Fin 5)
    (s : RunState) (h : Inv s) : Inv (start_phase exec false fb t k s).state := by
  by_cases h1 : false = false ∧ 0 < k.val ∧ okPrev (statusOf s (prevIdx k)) = false
  · rw [start_phase_pv exec false fb t k s h1]
    exact h
  · by_cases h2 : s.terminal = true
    · rw [start_phase_it_terminal exec false fb t k s h1 h2]
      exact h
    · have hT : s.terminal = false := bool_eq_true_of_not_eq_false h2
      by_cases h3 : statusOf s k = .pending ∨ statusOf s k = .failed
      · have hprev : 0 < k.val → okPrev (statusOf s (prevIdx k)) = true := by
          intro hk
          by_contra hc
          exact h1 ⟨rfl, hk, bool_eq_true_of_not_eq_false hc ▸ rfl⟩
        have hnoact := no_active_of_startable s h k hT h3 hprev
        have hkold : okPrev (statusOf s k) = false := by
          rcases h3 with hp | hp <;> rw [hp] <;> rfl
        cases hexec : exec ⟨s.runId, k.val + 1, priorArtifacts s k, fb⟩ with
        | some out =>
          rw [start_phase_ok exec false fb t k s out h1 hT h3 hexec]
          apply inv_point s _ k .awaitingApproval h
          · intro j
            by_cases hjk : j = k <;> simp [statusOf, hjk]
          · exact fun hc => hc
          · intro hc; cases hc
          · exact hkold
          · exact fun j _ => hnoact j
          · exact hprev
        | none =>
          rw [start_phase_fail exec false fb t k s h1 hT h3 hexec]
          apply inv_point s _ k .failed h
          · intro j
            by_cases hjk : j = k <;> simp [statusOf, hjk]
          · exact fun hc => hc
          · intro hc; cases hc
          · exact hkold
          · exact fun j _ => hnoact j
          · exact hprev
      · rw [start_phase_it_status exec false fb t k s h1 hT h3]
        exact h

theorem active_unique_of_awaiting {s : RunState} (h : Inv s) {k : Fin 5}
    (hst : statusOf s k = .awaitingApproval) :
    ∀ j : Fin 5, j ≠ k → isActive (statusOf s j) = false := by
  intro j hjk
  by_contra hc
  have hj : isActive (statusOf s j) = true := bool_eq_true_of_ne_false hc
  exact hjk (h.uniq j k hj (by rw [hst]; rfl))

theorem inv_approve_phase (t : Nat) (k : Fin 5) (s : RunState) (h : Inv s) :
    Inv (approve_phase t k s).state := by
  by_cases hst : statusOf s k = .awaitingApproval
  · rw [approve_phase_ok t k s hst]
    apply inv_point s _ k .approved h
    · intro j
      by_cases hjk : j = k <;> simp [statusOf, hjk]
    · intro hc; simp [hc]
    · intro hc; cases hc
    · rw [hst]; rfl
    · exact active_unique_of_awaiting h hst
    · exact fun hk => h.prec k hk (by rw [hst]; rfl)
  · rw [approve_phase_it t k s hst]
    exact h

theorem inv_request_revision (exec : Exec) (fb : String) (t : Nat) (k : Fin 5)
    (s : RunState) (h : Inv s) : Inv (request_revision exec fb t k s).state := by
  by_cases hst : statusOf s k = .awaitingApproval
  · cases hexec : exec ⟨s.runId, k.val + 1, priorArtifacts s k, some fb⟩ with
    | some out =>
      rw [request_revision_ok exec fb t k s out hst hexec]
      apply inv_point s _ k .awaitingApproval h
      · intro j
        by_cases hjk : j = k <;> simp [statusOf, hjk]
      · exact fun hc => hc
      · intro hc; cases hc
      · rw [hst]; rfl
      · exact active_unique_of_awaiting h hst
      · exact fun hk => h.prec k hk (by rw [hst]; rfl)
    | none =>
      rw [request_revision_fail exec fb t k s hst hexec]
      apply inv_point s _ k .failed h
      · intro j
        by_cases hjk : j = k <;> simp [statusOf, hjk]
      · exact fun hc => hc
      · intro hc; cases hc
      · rw [hst]; rfl
      · exact active_unique_of_awaiting h hst
      · exact fun hk => h.prec k hk (by rw [hst]; rfl)
  · rw [request_revision_it exec fb t k s hst]
    exact h

theorem inv_skip_phase (t : Nat) (k : Fin 5) (s : RunState) (h : Inv s) :
    Inv (skip_phase t k s).state := by
  by_cases h1 : s.terminal = true
  · rw [skip_phase_it_terminal t k s h1]
    exact h
  · have hT : s.terminal = false := bool_eq_true_of_not_eq_false h1
    by_cases h2 : isStarted (statusOf s k) = true
    · by_cases h3 : ∀ j : Fin 5, k < j → statusOf s j = .pending
      · rw [skip_phase_ok t k s hT h2 h3]
        have hstat : ∀ j : Fin 5,
            statusOf { s with record := skipRec s k t, terminal := true } j =
              if k < j then .skipped else statusOf s j := by
          intro j
          by_cases hkj : k < j <;> simp [statusOf, hkj]
        refine ⟨?_, ?_, ?_⟩
        · intro j hj hjst
          rw [hstat j] at hjst
          by_cases hkj : k < j
          · rw [if_pos hkj] at hjst
            cases hjst
          · rw [if_neg hkj] at hjst
            have hok := h.prec j hj hjst
            have hpj : ¬ k < prevIdx j := by
              rw [Fin.lt_def] at hkj ⊢
              simp only [prevIdx]
              omega
            rw [hstat (prevIdx j), if_neg hpj]
            exact hok
        · intro i j hi hj
          rw [hstat i] at hi
          rw [hstat j] at hj
          by_cases hki : k < i
          · rw [if_pos hki] at hi
            cases hi
          · by_cases hkj : k < j
            · rw [if_pos hkj] at hj
              cases hj
            · rw [if_neg hki] at hi
              rw [if_neg hkj] at hj
              exact h.uniq i j hi hj
        · intro j _
          rfl
      · rw [skip_phase_it_later t k s hT h2 h3]
        exact h
    · rw [skip_phase_it_notstarted t k s hT (bool_eq_true_of_not_eq_false h2)]
      exact h

theorem inv_step {s s' : RunState} (h : Inv s) (hs : Step s s') : Inv s' := by
  cases hs with
  | start exec fb t k => exact inv_start_phase exec fb t k s h
  | approve t k => exact inv_approve_phase t k s h
  | revise exec fb t k => exact inv_request_revision exec fb t k s h
  | skip t k => exact inv_skip_phase t k s h

theorem inv_reachable {id : String} {s : RunState} (h : Reachable id s) : Inv s := by
  unfold Reachable at h
  induction h with
  | refl => exact inv_create id
  | tail _ h2 ih => exact inv_step ih h2

/-- Modelled from the spec: a run selector is an explicit id or `latest`
(section 4.1). -/
inductive Selector where
  | latest
  | byId (id : String)

/-- Modelled from the spec: the collection of runs in creation order; `latest`
denotes the most recently created run (section 3). -/
structure Store where
  runs : List (String × RunState)

/-- Modelled from the spec: `resolve_run(selector)` returns the matching run
or fails `NotFound` (section 4.1). -/
def resolve_run (sel : Selector) (st : Store) : Except OrchError (String × RunState) :=
  match sel with
  | .latest =>
    match st.runs.getLast? with
    | none => .error .NotFound
    | some p => .ok p
  | .byId id =>
    match st.runs.find? (fun p => p.1 == id) with
    | none => .error .NotFound
    | some p => .ok p

/-- Add a freshly created run to the store (it becomes the latest). -/
def create_run_store (id : String) (st : Store) : Store :=
  ⟨st.runs ++ [(id, create_run id)]⟩

/-- Persist an updated run state back into the store under its id. -/
def update_run (id : String) (s' : RunState) (st : Store) : Store :=
  ⟨st.runs.map (fun p => if p.1 = id then (id, s') else p)⟩

/-- The phase currently `running` or `awaiting-approval`, if any. -/
def find_active (s : RunState) : Option (Fin 5) :=
  (List.finRange 5).find? (fun k => isActive (statusOf s k))

/-- Modelled from the spec: `resume` resolves the latest run, reads its
StateRecord, and re-presents the phase currently `running` or
`awaiting-approval` for decision without re-executing (section 4.5).  It
performs no writes, so the store is returned unchanged. -/
def resume (st : Store) : Except OrchError (StateRecord × Option (Fin 5)) × Store :=
  match resolve_run .latest st with
  | .error e => (.error e, st)
  | .ok (_, s) => (.ok (s.record, find_active s), st)

/-- Modelled from the spec: the four invocation modes of the CLIDispatcher
(sections 4.5 and 6). -/
inductive Mode where
  | full
  | explicitPhase (k : Fin 5)
  | resumeMode
  | quick

/-- Modelled from the spec: the CLIDispatcher maps each invocation mode onto
RunManager/PhaseController calls (section 4.5): `full` creates a run and
starts phase 1; `explicit phase N` resolves the latest run (creating one if
none exists) and starts phase N trusting the caller's precondition claim
(override); `resume` re-reads and re-presents; `quick` creates a run, starts
phase 1 and, once it is awaiting approval, skips phases 2-5 and marks the run
terminal. -/
def dispatch (exec : Exec) (newId : String) (t : Nat) (m : Mode) (st : Store) :
    Option OrchError × Store :=
  match m with
  | .full =>
    let r := start_phase exec false none t 0 (create_run newId)
    (r.err, update_run newId r.state (create_run_store newId st))
  | .explicitPhase k =>
    match resolve_run .latest st with
    | .ok (id, s) =>
      let r := start_phase exec true none t k s
      (r.err, update_run id r.state st)
    | .error _ =>
      let r := start_phase exec true none t k (create_run newId)
      (r.err, update_run newId r.state (create_run_store newId st))
  | .resumeMode =>
    match resume st with
    | (.error e, st') => (some e, st')
    | (.ok _, st') => (none, st')
  | .quick =>
    let r1 := start_phase exec false none t 0 (create_run newId)
    if r1.err = none ∧ statusOf r1.state 0 = .awaitingApproval then
      let r2 := skip_phase t 0 r1.state
      (r2.err, update_run newId r2.state (create_run_store newId st))
    else
      (r1.err, update_run newId r1.state (create_run_store newId st))

theorem update_run_append_fresh (st : Store) (id : String) (s0 s' : RunState)
    (hf : ∀ p ∈ st.runs, p.1 ≠ id) :
    update_run id s' ⟨st.runs ++ [(id, s0)]⟩ = ⟨st.runs ++ [(id, s')]⟩ := by
  unfold update_run
  congr 1
  rw [List.map_append]
  congr 1
  · have : ∀ p ∈ st.runs, (if p.1 = id then (id, s') else p) = p := by
      intro p hp
      rw [if_neg (hf p hp)]
    rw [List.map_congr_left this]
    simp
  · simp

/-- Modelled from the spec: the two storage locations of a run's state file.
A location is absent (`none`), holds content parsing to a StateRecord
(`some (some r)`), or holds partial/corrupt content (`some none`)
(section 4.2). -/
structure StateFiles where
  live : Option (Option StateRecord)
  tmp : Option (Option StateRecord)

/-- Modelled from the spec: `StateStore.read` fails `MissingState` when no
record exists and `CorruptState` when the record cannot be parsed, never
attempting repair (section 4.2). -/
def read_state (fs : StateFiles) : Except OrchError StateRecord :=
  match fs.live with
  | none => .error .MissingState
  | some none => .error .CorruptState
  | some (some r) => .ok r

/-- How far a (possibly crashed) write got: nothing yet, a partially written
temporary file, the fully written temporary file, or the final atomic rename. -/
inductive WriteProgress where
  | begun
  | tmpCorrupt
  | tmpFull
  | renamed
deriving DecidableEq, Repr

/-- Modelled from the spec: `StateStore.write` writes the record to a
temporary location and then atomically renames/replaces it over the live
record, never overwriting the live record in place (section 4.2).
`write_at` exposes every intermediate point at which a crash can occur. -/
def write_at (rec : StateRecord) (p : WriteProgress) (fs : StateFiles) : StateFiles :=
  match p with
  | .begun => fs
  | .tmpCorrupt => { fs with tmp := some none }
  | .tmpFull => { fs with tmp := some (some rec) }
  | .renamed => { live := some (some rec), tmp := none }

/-- The complete `StateStore.write` (all steps, ending in the atomic rename). -/
def write_state (rec : StateRecord) (fs : StateFiles) : StateFiles :=
  write_at rec .renamed fs

/-- A Phase Executor that always succeeds with a fixed artifact, used to build
concrete runs. -/
def execA : Exec := fun _ => some ⟨"artifact", "summary"⟩

/-- A freshly created run. -/
def runA : RunState := create_run "run-a"

/-- `runA` after phase 1 ran to `awaiting-approval`. -/
def stateA1 : RunState := (start_phase execA false none 0 0 runA).state

/-- `stateA1` after phase 1 was approved. -/
def stateA2 : RunState := (approve_phase 1 0 stateA1).state

/-- `stateA2` after phase 2 ran to `awaiting-approval`. -/
def stateA3 : RunState := (start_phase execA false none 2 1 stateA2).state

/-- `stateA1` after a revision of phase 1. -/
def stateR1 : RunState := (request_revision execA "more" 9 0 stateA1).state

theorem reachableA1 : Reachable "run-a" stateA1 :=
  Relation.ReflTransGen.tail Relation.ReflTransGen.refl
    (Step.start execA none 0 0 runA)

theorem reachableA3 : Reachable "run-a" stateA3 :=
  Relation.ReflTransGen.tail
    (Relation.ReflTransGen.tail reachableA1 (Step.approve 1 0 stateA1))
    (Step.start execA none 2 1 stateA2)

theorem stepR1 : Step stateA1 stateR1 :=
  Step.revise execA "more" 9 0 stateA1

/-- Claim C1: for every run and phase index k greater than 1, `start_phase`
succeeds only if phase k-1 is `approved` or `skipped` (absent an
explicit-phase override); a violating call fails `PrecedenceViolation` with no
state change and no persisted write; and in every reachable state of the
run's step relation, no phase beyond the first is running or beyond while its
predecessor is neither `approved` nor `skipped`. -/
theorem claim_C1_phase_precedence :
    (∀ (exec : Exec) (fb : Option String) (t : Nat) (k : Fin 5) (s : RunState),
        0 < k.val → okPrev (statusOf s (prevIdx k)) = false →
        start_phase exec false fb t k s = ⟨some .PrecedenceViolation, s, []⟩)
    ∧ (∀ (exec : Exec) (fb : Option String) (t : Nat) (k : Fin 5) (s : RunState),
        (start_phase exec false fb t k s).err = none → 0 < k.val →
        okPrev (statusOf s (prevIdx k)) = true)
    ∧ (∀ (id : String) (s : RunState), Reachable id s →
        ∀ k : Fin 5, 0 < k.val → isStarted (statusOf s k) = true →
        okPrev (statusOf s (prevIdx k)) = true) := by
  refine ⟨?_, ?_, ?_⟩
  · intro exec fb t k s hk hok
    exact start_phase_pv exec false fb t k s ⟨rfl, hk, hok⟩
  · intro exec fb t k s herr hk
    by_cases hok : okPrev (statusOf s (prevIdx k)) = true
    · exact hok
    · rw [start_phase_pv exec false fb t k s
        ⟨rfl, hk, bool_eq_true_of_not_eq_false hok⟩] at herr
      cases herr
  · exact fun id s h k hk hst => (inv_reachable h).prec k hk hst

/-- Witness for claim C1 at concrete inputs: starting phase 2 on a fresh run
fails `PrecedenceViolation` without touching the state, and in the concretely
reached states the precedence facts hold. -/
theorem claim_C1_phase_precedence_witness :
    start_phase execA false none 0 1 runA = ⟨some .PrecedenceViolation, runA, []⟩
    ∧ okPrev (statusOf stateA2 (prevIdx 1)) = true
    ∧ okPrev (statusOf stateA3 (prevIdx 1)) = true :=
  ⟨claim_C1_phase_precedence.1 execA none 0 1 runA (by decide) (by decide),
   claim_C1_phase_precedence.2.1 execA none 2 1 stateA2 (by decide) (by decide),
   claim_C1_phase_precedence.2.2 "run-a" stateA3 reachableA3 1 (by decide) (by decide)⟩

/-- Claim C7: in every reachable state of every run at most one phase is
`running` or `awaiting-approval`, and this also holds after every further
operation (each `Step` constructor is one of create/start/approve/revise/skip
applied with arbitrary arguments). -/
theorem claim_C7_single_active :
    ∀ (id : String) (s : RunState), Reachable id s →
      (∀ j k : Fin 5, isActive (statusOf s j) = true → isActive (statusOf s k) = true → j = k)
      ∧ (∀ s' : RunState, Step s s' →
          ∀ j k : Fin 5, isActive (statusOf s' j) = true → isActive (statusOf s' k) = true →
            j = k) :=
  fun _ _ h =>
    ⟨(inv_reachable h).uniq, fun _ hs => (inv_step (inv_reachable h) hs).uniq⟩

/-- Witness for claim C7: in the concrete reachable state `stateA1` phase 1 is
active, a revision step keeps it the unique active phase. -/
theorem claim_C7_single_active_witness :
    isActive (statusOf stateA1 0) = true
    ∧ isActive (statusOf stateR1 0) = true
    ∧ (0 : Fin 5) = 0 := by
  refine ⟨by decide, by decide, ?_⟩
  exact (claim_C7_single_active "run-a" stateA1 reachableA1).2 stateR1 stepR1 0 0
    (by decide) (by decide)

/-- Claim C2: every error outcome other than `PhaseExecutionFailure` leaves
the run state untouched and persists nothing, for each orchestrator operation
(`resume` never mutates the store at all); in particular `approve_phase` on a
phase not in `awaiting-approval` fails `InvalidTransition` with the state
unchanged. -/
theorem claim_C2_error_frame :
    (∀ (exec : Exec) (ov : Bool) (fb : Option String) (t : Nat) (k : Fin 5) (s : RunState)
        (e : OrchError), (start_phase exec ov fb t k s).err = some e →
        e ≠ .PhaseExecutionFailure →
        (start_phase exec ov fb t k s).state = s ∧ (start_phase exec ov fb t k s).writes = [])
    ∧ (∀ (t : Nat) (k : Fin 5) (s : RunState) (e : OrchError),
        (approve_phase t k s).err = some e → e ≠ .PhaseExecutionFailure →
        (approve_phase t k s).state = s ∧ (approve_phase t k s).writes = [])
    ∧ (∀ (exec : Exec) (fb : String) (t : Nat) (k : Fin 5) (s : RunState) (e : OrchError),
        (request_revision exec fb t k s).err = some e → e ≠ .PhaseExecutionFailure →
        (request_revision exec fb t k s).state = s
        ∧ (request_revision exec fb t k s).writes = [])
    ∧ (∀ (t : Nat) (k : Fin 5) (s : RunState) (e : OrchError),
        (skip_phase t k s).err = some e → e ≠ .PhaseExecutionFailure →
        (skip_phase t k s).state = s ∧ (skip_phase t k s).writes = [])
    ∧ (∀ st : Store, (resume st).2 = st)
    ∧ (∀ (t : Nat) (k : Fin 5) (s : RunState), ¬ statusOf s k = .awaitingApproval →
        approve_phase t k s = ⟨some .InvalidTransition, s, []⟩) := by
  refine ⟨?_, ?_, ?_, ?_, ?_, ?_⟩
  · intro exec ov fb t k s e herr hne
    by_cases h1 : ov = false ∧ 0 < k.val ∧ okPrev (statusOf s (prevIdx k)) = false
    · rw [start_phase_pv exec ov fb t k s h1]
      exact ⟨rfl, rfl⟩
    · by_cases h2 : s.terminal = true
      · rw [start_phase_it_terminal exec ov fb t k s h1 h2]
        exact ⟨rfl, rfl⟩
      · have hT := bool_eq_true_of_not_eq_false h2
        by_cases h3 : statusOf s k = .pending ∨ statusOf s k = .failed
        · cases hexec : exec ⟨s.runId, k.val + 1, priorArtifacts s k, fb⟩ with
          | some out =>
            rw [start_phase_ok exec ov fb t k s out h1 hT h3 hexec] at herr
            cases herr
          | none =>
            rw [start_phase_fail exec ov fb t k s h1 hT h3 hexec] at herr
            exact absurd (Option.some.inj herr).symm hne
        · rw [start_phase_it_status exec ov fb t k s h1 hT h3]
          exact ⟨rfl, rfl⟩
  · intro t k s e herr _
    by_cases hst : statusOf s k = .awaitingApproval
    · rw [approve_phase_ok t k s hst] at herr
      cases herr
    · rw [approve_phase_it t k s hst]
      exact ⟨rfl, rfl⟩
  · intro exec fb t k s e herr hne
    by_cases hst : statusOf s k = .awaitingApproval
    · cases hexec : exec ⟨s.runId, k.val + 1, priorArtifacts s k, some fb⟩ with
      | some out =>
        rw [request_revision_ok exec fb t k s out hst hexec] at herr
        cases herr
      | none =>
        rw [request_revision_fail exec fb t k s hst hexec] at herr
        exact absurd (Option.some.inj herr).symm hne
    · rw [request_revision_it exec fb t k s hst]
      exact ⟨rfl, rfl⟩
  · intro t k s e herr _
    by_cases h1 : s.terminal = true
    · rw [skip_phase_it_terminal t k s h1]
      exact ⟨rfl, rfl⟩
    · have hT := bool_eq_true_of_not_eq_false h1
      by_cases h2 : isStarted (statusOf s k) = true
      · by_cases h3 : ∀ j : Fin 5, k < j → statusOf s j = .pending
        · rw [skip_phase_ok t k s hT h2 h3] at herr
          cases herr
        · rw [skip_phase_it_later t k s hT h2 h3]
          exact ⟨rfl, rfl⟩
      · rw [skip_phase_it_notstarted t k s hT (bool_eq_true_of_not_eq_false h2)]
        exact ⟨rfl, rfl⟩
  · intro st
    unfold resume
    cases resolve_run .latest st with
    | error e => rfl
    | ok p => rfl
  · intro t k s h
    exact approve_phase_it t k s h

/-- Witness for claim C2 at concrete failing inputs: a precedence violation, an
illegal approval, an illegal revision and an illegal skip all leave the fresh
run `runA` untouched; `resume` on the empty store returns it unchanged. -/
theorem claim_C2_error_frame_witness :
    ((start_phase execA false none 0 2 runA).state = runA
      ∧ (start_phase execA false none 0 2 runA).writes = [])
    ∧ ((approve_phase 0 0 runA).state = runA ∧ (approve_phase 0 0 runA).writes = [])
    ∧ ((request_revision execA "x" 0 0 runA).state = runA
      ∧ (request_revision execA "x" 0 0 runA).writes = [])
    ∧ ((skip_phase 0 0 runA).state = runA ∧ (skip_phase 0 0 runA).writes = [])
    ∧ (resume ⟨[]⟩).2 = (⟨[]⟩ : Store)
    ∧ approve_phase 0 0 runA = ⟨some .InvalidTransition, runA, []⟩ :=
  ⟨claim_C2_error_frame.1 execA false none 0 2 runA .PrecedenceViolation (by decide) (by decide),
   claim_C2_error_frame.2.1 0 0 runA .InvalidTransition (by decide) (by decide),
   claim_C2_error_frame.2.2.1 execA "x" 0 0 runA .InvalidTransition (by decide) (by decide),
   claim_C2_error_frame.2.2.2.1 0 0 runA .InvalidTransition (by decide) (by decide),
   claim_C2_error_frame.2.2.2.2.1 ⟨[]⟩,
   claim_C2_error_frame.2.2.2.2.2 0 0 runA (by decide)⟩

/-- Claim C3: `StateStore.write` is atomic: a crash at any point before the
final atomic rename leaves the live record byte-for-byte unchanged, so a
subsequent read returns the previously committed StateRecord (and never a
partially written one, since partial content only ever reaches the temporary
location); a completed write reads back the new record. -/
theorem claim_C3_atomic_write (fs : StateFiles) (rec : StateRecord) (p : WriteProgress)
    (hp : p ≠ .renamed) :
    read_state (write_at rec p fs) = read_state fs
    ∧ (write_at rec p fs).live = fs.live
    ∧ read_state (write_state rec fs) = .ok rec := by
  refine ⟨?_, ?_, rfl⟩ <;> cases p <;> first | rfl | exact absurd rfl hp

/-- Witness for claim C3: a write of `runA`'s record that crashes after
writing partial content to the temporary location leaves a previously
committed record readable and intact. -/
theorem claim_C3_atomic_write_witness :
    read_state (write_at stateA2.record .tmpCorrupt ⟨some (some runA.record), none⟩)
      = read_state ⟨some (some runA.record), none⟩
    ∧ (write_at stateA2.record .tmpCorrupt ⟨some (some runA.record), none⟩).live
      = (⟨some (some runA.record), none⟩ : StateFiles).live
    ∧ read_state (write_state stateA2.record ⟨some (some runA.record), none⟩)
      = .ok stateA2.record :=
  claim_C3_atomic_write ⟨some (some runA.record), none⟩ stateA2.record .tmpCorrupt (by decide)

/-- Claim C4: `resume` is idempotent: it never mutates the store, and two
consecutive invocations with no intervening decision return identical results
(in particular bit-identical StateRecord content). -/
theorem claim_C4_resume_idempotent (st : Store) :
    (resume st).2 = st ∧ resume ((resume st).2) = resume st := by
  have h2 : (resume st).2 = st := by
    unfold resume
    cases resolve_run .latest st with
    | error e => rfl
    | ok p => rfl
  exact ⟨h2, by rw [h2]⟩

/-- Claim C6: `request_revision` on an `awaiting-approval` phase succeeds,
leaves that phase `awaiting-approval` again after passing through a persisted
`running` record, re-invokes the Phase Executor with the feedback appended to
its inputs, and replaces that phase's artifact with the superseding output;
every other phase's status and artifact are untouched (no new phase exists). -/
theorem claim_C6_request_revision (exec : Exec) (fb : String) (t : Nat) (k : Fin 5)
    (s : RunState) (out : ExecOutput)
    (hst : statusOf s k = .awaitingApproval)
    (hexec : exec ⟨s.runId, k.val + 1, priorArtifacts s k, some fb⟩ = some out) :
    (request_revision exec fb t k s).err = none
    ∧ statusOf (request_revision exec fb t k s).state k = .awaitingApproval
    ∧ (request_revision exec fb t k s).state.artifacts k
        = some ⟨out.artifactContent, out.summary⟩
    ∧ (∀ j : Fin 5, j ≠ k →
        statusOf (request_revision exec fb t k s).state j = statusOf s j
        ∧ (request_revision exec fb t k s).state.artifacts j = s.artifacts j)
    ∧ (∃ rec ∈ (request_revision exec fb t k s).writes, (rec.phases k).status = .running) := by
  rw [request_revision_ok exec fb t k s out hst hexec]
  refine ⟨rfl, ?_, ?_, ?_, ?_⟩
  · simp [statusOf]
  · simp
  · intro j hjk
    exact ⟨by simp [statusOf, hjk], by simp [Function.update_noteq hjk]⟩
  · exact ⟨reviseRunningRec s k t fb, by simp, by simp⟩

/-- Witness for claim C6: revising phase 1 of `stateA1` with concrete feedback
keeps it awaiting approval with the superseding artifact in place. -/
theorem claim_C6_request_revision_witness :
    (request_revision execA "add more detail" 7 0 stateA1).err = none
    ∧ statusOf (request_revision execA "add more detail" 7 0 stateA1).state 0
        = .awaitingApproval
    ∧ (request_revision execA "add more detail" 7 0 stateA1).state.artifacts 0
        = some ⟨"artifact", "summary"⟩
    ∧ (∀ j : Fin 5, j ≠ 0 →
        statusOf (request_revision execA "add more detail" 7 0 stateA1).state j
          = statusOf stateA1 j
        ∧ (request_revision execA "add more detail" 7 0 stateA1).state.artifacts j
          = stateA1.artifacts j)
    ∧ (∃ rec ∈ (request_revision execA "add more detail" 7 0 stateA1).writes,
        (rec.phases 0).status = .running) :=
  claim_C6_request_revision execA "add more detail" 7 0 stateA1 ⟨"artifact", "summary"⟩
    (by decide) rfl

/-- Claim C5: the invocation surface has exactly the four modes full, explicit
phase N, resume and quick; a `quick` invocation creates a run and starts phase
1, and once phase 1 completes (executor succeeds, phase awaiting approval) it
marks phases 2-5 `skipped`, marks the run terminal, and leaves exactly one
artifact (phase 1's) present. -/
theorem claim_C5_quick_mode :
    (∀ m : Mode, m = .full ∨ (∃ k, m = .explicitPhase k) ∨ m = .resumeMode ∨ m = .quick)
    ∧ (∀ (exec : Exec) (st : Store) (newId : String) (t : Nat) (out : ExecOutput),
        exec ⟨newId, 1, (fun _ => none), none⟩ = some out →
        (∀ p ∈ st.runs, p.1 ≠ newId) →
        ∃ sF : RunState,
          (dispatch exec newId t .quick st).2.runs = st.runs ++ [(newId, sF)]
          ∧ (dispatch exec newId t .quick st).1 = none
          ∧ (∀ j : Fin 5, 0 < j.val → statusOf sF j = .skipped)
          ∧ sF.terminal = true
          ∧ sF.artifacts 0 = some ⟨out.artifactContent, out.summary⟩
          ∧ (∀ j : Fin 5, 0 < j.val → sF.artifacts j = none)) := by
  constructor
  · intro m
    cases m with
    | full => exact Or.inl rfl
    | explicitPhase k => exact Or.inr (Or.inl ⟨k, rfl⟩)
    | resumeMode => exact Or.inr (Or.inr (Or.inl rfl))
    | quick => exact Or.inr (Or.inr (Or.inr rfl))
  · intro exec st newId t out hexec hf
    have hpa : priorArtifacts (create_run newId) 0 = fun _ => none := by
      funext j
      unfold priorArtifacts
      simp [create_run]
    have hexec1 : exec ⟨(create_run newId).runId, (0 : Fin 5).val + 1,
        priorArtifacts (create_run newId) 0, none⟩ = some out := by
      rw [hpa]
      exact hexec
    have hok1 := start_phase_ok exec false none t 0 (create_run newId) out
      (by simp) rfl (Or.inl rfl) hexec1
    have hr1 : (start_phase exec false none t 0 (create_run newId)).state =
        { create_run newId with
          record := doneRec (create_run newId) 0 t,
          artifacts := Function.update (create_run newId).artifacts 0
            (some ⟨out.artifactContent, out.summary⟩) } := by
      rw [hok1]
    have hstat0 : statusOf (start_phase exec false none t 0 (create_run newId)).state 0
        = .awaitingApproval := by
      rw [hr1]
      simp [statusOf]
    have hlater : ∀ j : Fin 5, (0 : Fin 5) < j →
        statusOf (start_phase exec false none t 0 (create_run newId)).state j = .pending := by
      intro j hj
      have hne : j ≠ 0 := by
        intro hc
        rw [hc] at hj
        exact lt_irrefl _ hj
      rw [hr1]
      simp [statusOf, hne, create_run]
    have hterm1 : (start_phase exec false none t 0 (create_run newId)).state.terminal
        = false := by
      rw [hr1]
      rfl
    have hskip := skip_phase_ok t 0 (start_phase exec false none t 0 (create_run newId)).state
      hterm1 (by rw [hstat0]; rfl) hlater
    refine ⟨(skip_phase t 0 (start_phase exec false none t 0 (create_run newId)).state).state,
      ?_, ?_, ?_, ?_, ?_, ?_⟩
    · simp only [dispatch]
      rw [if_pos ⟨by rw [hok1], hstat0⟩]
      rw [show create_run_store newId st = ⟨st.runs ++ [(newId, create_run newId)]⟩ from rfl,
        update_run_append_fresh st newId _ _ hf]
    · simp only [dispatch]
      rw [if_pos ⟨by rw [hok1], hstat0⟩]
      rw [hskip]
    · intro j hj
      have hjlt : (0 : Fin 5) < j := by
        rw [Fin.lt_def]
        exact hj
      rw [hskip]
      simp [statusOf, hjlt]
    · rw [hskip]
    · rw [hskip]
      show (start_phase exec false none t 0 (create_run newId)).state.artifacts 0 = _
      rw [hr1]
      simp
    · intro j hj
      have hne : j ≠ 0 := by
        intro hc
        rw [hc] at hj
        exact Nat.lt_irrefl _ hj
      rw [hskip]
      show (start_phase exec false none t 0 (create_run newId)).state.artifacts j = none
      rw [hr1]
      simp [Function.update_noteq hne, create_run]

/-- Witness for claim C5: a concrete quick invocation on the empty store with
a concrete executor produces the fully skipped, terminal, one-artifact run. -/
theorem claim_C5_quick_mode_witness :
    (Mode.quick = .full ∨ (∃ k, Mode.quick = .explicitPhase k) ∨ Mode.quick = .resumeMode
      ∨ Mode.quick = .quick)
    ∧ ∃ sF : RunState,
        (dispatch execA "run-q" 3 .quick ⟨[]⟩).2.runs = [] ++ [("run-q", sF)]
        ∧ (dispatch execA "run-q" 3 .quick ⟨[]⟩).1 = none
        ∧ (∀ j : Fin 5, 0 < j.val → statusOf sF j = .skipped)
        ∧ sF.terminal = true
        ∧ sF.artifacts 0 = some ⟨"artifact", "summary"⟩
        ∧ (∀ j : Fin 5, 0 < j.val → sF.artifacts j = none) :=
  ⟨claim_C5_quick_mode.1 Mode.quick,
   claim_C5_quick_mode.2 execA ⟨[]⟩ "run-q" 3 ⟨"artifact", "summary"⟩ rfl
     (by intro p hp; cases hp)⟩

/-!
Embedding of `src/setup/global-setup.ts`.

Strings manipulated by the script are modelled as byte lists; the Node/JS
library functions it relies on (`JSON.stringify` with and without an indent
argument, `JSON.parse`, base64 encoding via `Buffer.from(...).toString`,
decimal printing via `Date.now().toString()`) are given executable byte-level
models below, together with the round-trip laws the claims depend on.
-/

/-- A byte string: the UTF-8 bytes of a JS string. -/
abbrev Bytes := List Nat

/-- Bytes of an ASCII string literal. -/
def strBytes (s : String) : Bytes := s.data.map Char.toNat

/-- Decimal digits of a natural number, as ASCII bytes (models
`Number.prototype.toString` for naturals). -/
def natDec (m : Nat) : Bytes :=
  if m = 0 then [48] else ((Nat.digits 10 m).reverse.map (· + 48))

/-- Numeric value of a big-endian ASCII digit string (the accumulator loop a
decimal parser performs). -/
def decVal (ds : Bytes) : Nat := ds.foldl (fun a d => a * 10 + (d - 48)) 0

theorem foldl_base10 (L : List Nat) (a : Nat) :
    List.foldl (fun x d => x * 10 + d) a L.reverse = a * 10 ^ L.length + Nat.ofDigits 10 L := by
  induction L generalizing a with
  | nil => simp [Nat.ofDigits]
  | cons d ds ih =>
    rw [List.reverse_cons, List.foldl_append, ih]
    simp only [List.foldl, Nat.ofDigits_cons, List.length_cons]
    ring

theorem decVal_natDec (m : Nat) : decVal (natDec m) = m := by
  unfold natDec decVal
  by_cases hm : m = 0
  · rw [if_pos hm, hm]
    rfl
  · rw [if_neg hm]
    rw [List.foldl_map]
    have hfun : (fun (a d : Nat) => a * 10 + (d + 48 - 48)) = fun a d => a * 10 + d := by
      funext a d
      omega
    calc List.foldl (fun a d => a * 10 + (d + 48 - 48)) 0 (Nat.digits 10 m).reverse
        = List.foldl (fun a d => a * 10 + d) 0 (Nat.digits 10 m).reverse := by rw [hfun]
      _ = 0 * 10 ^ (Nat.digits 10 m).length + Nat.ofDigits 10 (Nat.digits 10 m) :=
          foldl_base10 _ 0
      _ = m := by rw [Nat.ofDigits_digits]; ring

theorem natDec_digits (m : Nat) : ∀ b ∈ natDec m, 48 ≤ b ∧ b ≤ 57 := by
  unfold natDec
  by_cases hm : m = 0
  · rw [if_pos hm]
    intro b hb
    rw [List.mem_singleton] at hb
    omega
  · rw [if_neg hm]
    intro b hb
    rw [List.mem_map] at hb
    obtain ⟨d, hd, hbd⟩ := hb
    rw [List.mem_reverse] at hd
    have : d < 10 := Nat.digits_lt_base (by norm_num) hd
    omega

theorem natDec_ne_nil (m : Nat) : natDec m ≠ [] := by
  unfold natDec
  by_cases hm : m = 0
  · rw [if_pos hm]
    exact List.cons_ne_nil _ _
  · rw [if_neg hm]
    simp [Nat.digits_ne_nil_iff_ne_zero, hm]

/-- Decimal rendering of a JS integer (models `JSON.stringify` on an integral
number). -/
def intDec (n : Int) : Bytes :=
  if n < 0 then 45 :: natDec n.natAbs else natDec n.toNat

/-- The base64 alphabet character for one sextet (models Node's `Buffer`
base64). -/
def b64Char (n : Nat) : Nat :=
  if n < 26 then 65 + n
  else if n < 52 then 71 + n
  else if n < 62 then n - 4
  else if n = 62 then 43
  else 47

/-- The sextet of one base64 alphabet byte, if any. -/
def b64Val (b : Nat) : Option Nat :=
  if 48 ≤ b ∧ b ≤ 57 then some (b + 4)
  else if 65 ≤ b ∧ b ≤ 90 then some (b - 65)
  else if 97 ≤ b ∧ b ≤ 122 then some (b - 71)
  else if b = 43 then some 62
  else if b = 47 then some 63
  else none

theorem b64Val_b64Char {n : Nat} (h : n < 64) : b64Val (b64Char n) = some n := by
  interval_cases n <;> rfl

theorem b64Char_ne_61 (n : Nat) : b64Char n ≠ 61 := by
  unfold b64Char
  split_ifs <;> omega

/-- Base64 encoding of a byte string (models
`Buffer.from(s).toString('base64')`). -/
def b64Enc : Bytes → Bytes
  | [] => []
  | [a] => [b64Char (a / 4), b64Char (a % 4 * 16), 61, 61]
  | [a, b] => [b64Char (a / 4), b64Char (a % 4 * 16 + b / 16), b64Char (b % 16 * 4), 61]
  | a :: b :: c :: rest =>
    b64Char (a / 4) :: b64Char (a % 4 * 16 + b / 16) :: b64Char (b % 16 * 4 + c / 64)
      :: b64Char (c % 64) :: b64Enc rest

/-- Base64 decoding (models `Buffer.from(s, 'base64')`). -/
def b64Dec : Bytes → Option Bytes
  | [] => some []
  | w :: x :: y :: z :: rest =>
    match b64Val w, b64Val x with
    | some sw, some sx =>
      if y = 61 then
        if z = 61 ∧ rest = [] ∧ sx % 16 = 0 then some [sw * 4 + sx / 16] else none
      else
        match b64Val y with
        | some sy =>
          if z = 61 then
            if rest = [] ∧ sy % 4 = 0 then
              some [sw * 4 + sx / 16, sx % 16 * 16 + sy / 4]
            else none
          else
            match b64Val z, b64Dec rest with
            | some sz, some tail =>
              some ((sw * 4 + sx / 16) :: (sx % 16 * 16 + sy / 4) :: (sy % 4 * 64 + sz) :: tail)
            | _, _ => none
        | none => none
    | _, _ => none
  | _ => none

theorem b64Dec_b64Enc (bs : Bytes) (h : ∀ b ∈ bs, b < 256) : b64Dec (b64Enc bs) = some bs := by
  induction bs using b64Enc.induct with
  | case1 => rfl
  | case2 a =>
    have ha : a < 256 := h a (by simp)
    have e1 := b64Val_b64Char (show a / 4 < 64 by omega)
    have e2 := b64Val_b64Char (show a % 4 * 16 < 64 by omega)
    have h16 : a % 4 * 16 % 16 = 0 := by omega
    unfold b64Enc b64Dec
    rw [e1, e2]
    simp [h16]
    omega
  | case3 a b =>
    have ha : a < 256 := h a (by simp)
    have hb : b < 256 := h b (by simp)
    have e1 := b64Val_b64Char (show a / 4 < 64 by omega)
    have e2 := b64Val_b64Char (show a % 4 * 16 + b / 16 < 64 by omega)
    have e3 := b64Val_b64Char (show b % 16 * 4 < 64 by omega)
    have h4 : b % 16 * 4 % 4 = 0 := by omega
    unfold b64Enc b64Dec
    rw [e1, e2]
    simp [b64Char_ne_61, e3, h4]
    constructor <;> omega
  | case4 a b c rest ih =>
    have ha : a < 256 := h a (by simp)
    have hb : b < 256 := h b (by simp)
    have hc : c < 256 := h c (by simp)
    have hrest : ∀ x ∈ rest, x < 256 := fun x hx => h x (by simp [hx])
    have e1 := b64Val_b64Char (show a / 4 < 64 by omega)
    have e2 := b64Val_b64Char (show a % 4 * 16 + b / 16 < 64 by omega)
    have e3 := b64Val_b64Char (show b % 16 * 4 + c / 64 < 64 by omega)
    have e4 := b64Val_b64Char (show c % 64 < 64 by omega)
    unfold b64Enc b64Dec
    rw [e1, e2]
    simp [b64Char_ne_61, e3, e4, ih hrest]
    refine ⟨?_, ?_, ?_⟩ <;> omega

mutual
/-- A JSON value as handled by `JSON.stringify`/`JSON.parse`: null, boolean,
integral number, string (as bytes), array, object (ordered key-value list). -/
inductive Json where
  | null : Json
  | bool (b : Bool) : Json
  | num (n : Int) : Json
  | str (s : Bytes) : Json
  | arr (elems : JList) : Json
  | obj (fields : JFields) : Json
/-- A list of JSON values (array elements). -/
inductive JList where
  | nil : JList
  | cons (hd : Json) (tl : JList) : JList
/-- An ordered association list of JSON object fields. -/
inductive JFields where
  | nil : JFields
  | cons (key : Bytes) (val : Json) (tl : JFields) : JFields
end

mutual
/-- Well-formedness of a JSON value: every string (and key) is a byte string. -/
def Json.wf : Json → Bool
  | .null => true
  | .bool _ => true
  | .num _ => true
  | .str s => s.all (fun b => b < 256)
  | .arr xs => xs.wf
  | .obj fs => fs.wf
/-- Well-formedness of array elements. -/
def JList.wf : JList → Bool
  | .nil => true
  | .cons x tl => x.wf && tl.wf
/-- Well-formedness of object fields. -/
def JFields.wf : JFields → Bool
  | .nil => true
  | .cons k v tl => k.all (fun b => b < 256) && v.wf && tl.wf
end

/-- One lowercase hex digit as an ASCII byte. -/
def hexDigit (n : Nat) : Nat := if n < 10 then 48 + n else 87 + n

/-- JSON escaping of one byte inside a string literal, exactly as
`JSON.stringify` emits it: quote and backslash escaped, the five standard
control escapes, other control bytes as a lowercase unicode escape. -/
def escByte (b : Nat) : Bytes :=
  if b = 34 then [92, 34]
  else if b = 92 then [92, 92]
  else if b = 8 then [92, 98]
  else if b = 9 then [92, 116]
  else if b = 10 then [92, 110]
  else if b = 12 then [92, 102]
  else if b = 13 then [92, 114]
  else if b < 32 then [92, 117, 48, 48, hexDigit (b / 16), hexDigit (b % 16)]
  else [b]

/-- JSON escaping of a whole string body. -/
def escBytes : Bytes → Bytes
  | [] => []
  | b :: rest => escByte b ++ escBytes rest

/-- The newline emitted between items when an indent width is given
(`JSON.stringify(v, null, w)`), nothing in compact mode. -/
def nlOf (ind : Option Nat) : Bytes :=
  match ind with
  | none => []
  | some _ => [10]

/-- The indentation prefix at nesting level `lvl`. -/
def padOf (ind : Option Nat) (lvl : Nat) : Bytes :=
  match ind with
  | none => []
  | some w => List.replicate (w * lvl) 32

/-- The space after a key's colon in indented mode. -/
def spOf (ind : Option Nat) : Bytes :=
  match ind with
  | none => []
  | some _ => [32]

mutual
/-- Byte rendering of a JSON value, modelling `JSON.stringify(v)` when
`ind = none` and `JSON.stringify(v, null, w)` when `ind = some w`, at nesting
level `lvl`. -/
def render (ind : Option Nat) (lvl : Nat) : Json → Bytes
  | .null => [110, 117, 108, 108]
  | .bool true => [116, 114, 117, 101]
  | .bool false => [102, 97, 108, 115, 101]
  | .num n => intDec n
  | .str s => 34 :: (escBytes s ++ [34])
  | .arr .nil => [91, 93]
  | .arr (.cons x tl) =>
    91 :: (nlOf ind ++ renderItems ind (lvl + 1) (JList.cons x tl) ++ nlOf ind
      ++ padOf ind lvl ++ [93])
  | .obj .nil => [123, 125]
  | .obj (.cons k v tl) =>
    123 :: (nlOf ind ++ renderFields ind (lvl + 1) (JFields.cons k v tl) ++ nlOf ind
      ++ padOf ind lvl ++ [125])
/-- Byte rendering of comma-separated array items, each on its own indented
line in indented mode. -/
def renderItems (ind : Option Nat) (lvl : Nat) : JList → Bytes
  | .nil => []
  | .cons x .nil => padOf ind lvl ++ render ind lvl x
  | .cons x (.cons y tl) =>
    padOf ind lvl ++ render ind lvl x
      ++ 44 :: (nlOf ind ++ renderItems ind lvl (JList.cons y tl))
/-- Byte rendering of comma-separated object fields. -/
def renderFields (ind : Option Nat) (lvl : Nat) : JFields → Bytes
  | .nil => []
  | .cons k v .nil =>
    padOf ind lvl ++ 34 :: (escBytes k ++ [34]) ++ 58 :: (spOf ind ++ render ind lvl v)
  | .cons k v (.cons k2 v2 tl) =>
    padOf ind lvl ++ 34 :: (escBytes k ++ [34]) ++ 58 :: (spOf ind ++ render ind lvl v)
      ++ 44 :: (nlOf ind ++ renderFields ind lvl (JFields.cons k2 v2 tl))
end

/-- `JSON.stringify(v)`: compact rendering. -/
def renderC (v : Json) : Bytes := render none 0 v

/-- `JSON.stringify(v, null, 2)`: pretty rendering with a two-space indent. -/
def renderP (v : Json) : Bytes := render (some 2) 0 v

/-- The numeric value of one hex digit byte, if any. -/
def hexVal (b : Nat) : Option Nat :=
  if 48 ≤ b ∧ b ≤ 57 then some (b - 48)
  else if 97 ≤ b ∧ b ≤ 102 then some (b - 87)
  else if 65 ≤ b ∧ b ≤ 70 then some (b - 55)
  else none

theorem hexVal_hexDigit {n : Nat} (h : n < 16) : hexVal (hexDigit n) = some n := by
  interval_cases n <;> rfl

/-- Parse the body of a JSON string literal after the opening quote,
un-escaping as `JSON.parse` does, up to the closing quote. -/
def parseStrBody : Bytes → Option (Bytes × Bytes)
  | [] => none
  | b :: rest =>
    if b = 34 then some ([], rest)
    else if b = 92 then
      match rest with
      | 34 :: r => (parseStrBody r).map (fun p => (34 :: p.1, p.2))
      | 92 :: r => (parseStrBody r).map (fun p => (92 :: p.1, p.2))
      | 47 :: r => (parseStrBody r).map (fun p => (47 :: p.1, p.2))
      | 98 :: r => (parseStrBody r).map (fun p => (8 :: p.1, p.2))
      | 116 :: r => (parseStrBody r).map (fun p => (9 :: p.1, p.2))
      | 110 :: r => (parseStrBody r).map (fun p => (10 :: p.1, p.2))
      | 102 :: r => (parseStrBody r).map (fun p => (12 :: p.1, p.2))
      | 114 :: r => (parseStrBody r).map (fun p => (13 :: p.1, p.2))
      | 117 :: h1 :: h2 :: h3 :: h4 :: r =>
        match hexVal h1, hexVal h2, hexVal h3, hexVal h4 with
        | some x1, some x2, some x3, some x4 =>
          (parseStrBody r).map (fun p => ((x1 * 4096 + x2 * 256 + x3 * 16 + x4) :: p.1, p.2))
        | _, _, _, _ => none
      | _ => none
    else (parseStrBody rest).map (fun p => (b :: p.1, p.2))

/-- An ASCII decimal digit byte. -/
def isDigitB (b : Nat) : Bool := 48 ≤ b && b ≤ 57

/-- A JSON whitespace byte (space, tab, newline, carriage return). -/
def isWsB (b : Nat) : Bool := b = 32 || b = 9 || b = 10 || b = 13

/-- Skip leading JSON whitespace. -/
def skipWs (s : Bytes) : Bytes := s.dropWhile isWsB

/-- Parse a leading run of decimal digits into a natural number. -/
def parseNatNum (s : Bytes) : Option (Nat × Bytes) :=
  let ds := s.takeWhile isDigitB
  if ds.isEmpty then none else some (decVal ds, s.dropWhile isDigitB)

mutual
/-- Fueled recursive-descent parse of one JSON value (a model of
`JSON.parse`); leading whitespace is skipped, the remaining input is
returned. -/
def parseVal : Nat → Bytes → Option (Json × Bytes)
  | 0, _ => none
  | fuel + 1, s =>
    match skipWs s with
    | [] => none
    | b :: t =>
      if b = 110 then
        match t with
        | 117 :: 108 :: 108 :: r => some (.null, r)
        | _ => none
      else if b = 116 then
        match t with
        | 114 :: 117 :: 101 :: r => some (.bool true, r)
        | _ => none
      else if b = 102 then
        match t with
        | 97 :: 108 :: 115 :: 101 :: r => some (.bool false, r)
        | _ => none
      else if b = 34 then
        (parseStrBody t).map (fun p => (.str p.1, p.2))
      else if b = 91 then
        (parseItems fuel t).map (fun p => (.arr p.1, p.2))
      else if b = 123 then
        (parseFieldSeq fuel t).map (fun p => (.obj p.1, p.2))
      else if b = 45 then
        (parseNatNum t).map (fun p => (.num (-(p.1 : Int)), p.2))
      else if isDigitB b then
        (parseNatNum (b :: t)).map (fun p => (.num (p.1 : Int), p.2))
      else none
/-- Parse the items of a JSON array after the opening bracket. -/
def parseItems : Nat → Bytes → Option (JList × Bytes)
  | 0, _ => none
  | fuel + 1, s =>
    match skipWs s with
    | [] => none
    | b :: t =>
      if b = 93 then some (.nil, t)
      else
        match parseVal fuel (b :: t) with
        | none => none
        | some (v, r) =>
          match skipWs r with
          | [] => none
          | c :: r2 =>
            if c = 44 then (parseItems fuel r2).map (fun p => (.cons v p.1, p.2))
            else if c = 93 then some (.cons v .nil, r2)
            else none
/-- Parse the fields of a JSON object after the opening brace. -/
def parseFieldSeq : Nat → Bytes → Option (JFields × Bytes)
  | 0, _ => none
  | fuel + 1, s =>
    match skipWs s with
    | [] => none
    | b :: t =>
      if b = 125 then some (.nil, t)
      else if b = 34 then
        match parseStrBody t with
        | none => none
        | some (key, r1) =>
          match skipWs r1 with
          | [] => none
          | c :: r2 =>
            if c = 58 then
              match parseVal fuel r2 with
              | none => none
              | some (v, r3) =>
                match skipWs r3 with
                | [] => none
                | d :: r4 =>
                  if d = 44 then
                    (parseFieldSeq fuel r4).map (fun p => (.cons key v p.1, p.2))
                  else if d = 125 then some (.cons key v .nil, r4)
                  else none
            else none
      else none
end

/-- `JSON.parse` on a byte string: parse one value, then require only
whitespace to remain. -/
def parseJson (s : Bytes) : Option Json :=
  match parseVal (s.length + 1) s with
  | some (v, rest) => if skipWs rest = [] then some v else none
  | none => none

theorem parseStrBody_escBytes (s rest : Bytes) :
    parseStrBody (escBytes s ++ 34 :: rest) = some (s, rest) := by
  induction s with
  | nil =>
    rw [show escBytes [] ++ 34 :: rest = 34 :: rest from by simp [escBytes]]
    rw [parseStrBody.eq_def]
    simp
  | cons b tl ih =>
    show parseStrBody (escByte b ++ escBytes tl ++ 34 :: rest) = some (b :: tl, rest)
    rw [List.append_assoc]
    unfold escByte
    split_ifs with h34 h92 h8 h9 h10 h12 h13 hlt
    · subst h34
      rw [show ([92, 34] : Bytes) ++ (escBytes tl ++ 34 :: rest)
          = 92 :: 34 :: (escBytes tl ++ 34 :: rest) from rfl]
      rw [parseStrBody.eq_def]
      simp [ih]
    · subst h92
      rw [show ([92, 92] : Bytes) ++ (escBytes tl ++ 34 :: rest)
          = 92 :: 92 :: (escBytes tl ++ 34 :: rest) from rfl]
      rw [parseStrBody.eq_def]
      simp [ih]
    · subst h8
      rw [show ([92, 98] : Bytes) ++ (escBytes tl ++ 34 :: rest)
          = 92 :: 98 :: (escBytes tl ++ 34 :: rest) from rfl]
      rw [parseStrBody.eq_def]
      simp [ih]
    · subst h9
      rw [show ([92, 116] : Bytes) ++ (escBytes tl ++ 34 :: rest)
          = 92 :: 116 :: (escBytes tl ++ 34 :: rest) from rfl]
      rw [parseStrBody.eq_def]
      simp [ih]
    · subst h10
      rw [show ([92, 110] : Bytes) ++ (escBytes tl ++ 34 :: rest)
          = 92 :: 110 :: (escBytes tl ++ 34 :: rest) from rfl]
      rw [parseStrBody.eq_def]
      simp [ih]
    · subst h12
      rw [show ([92, 102] : Bytes) ++ (escBytes tl ++ 34 :: rest)
          = 92 :: 102 :: (escBytes tl ++ 34 :: rest) from rfl]
      rw [parseStrBody.eq_def]
      simp [ih]
    · subst h13
      rw [show ([92, 114] : Bytes) ++ (escBytes tl ++ 34 :: rest)
          = 92 :: 114 :: (escBytes tl ++ 34 :: rest) from rfl]
      rw [parseStrBody.eq_def]
      simp [ih]
    · have e0 : hexVal 48 = some 0 := rfl
      have e1 : hexVal (hexDigit (b / 16)) = some (b / 16) := hexVal_hexDigit (by omega)
      have e2 : hexVal (hexDigit (b % 16)) = some (b % 16) := hexVal_hexDigit (by omega)
      rw [show ([92, 117, 48, 48, hexDigit (b / 16), hexDigit (b % 16)] : Bytes)
          ++ (escBytes tl ++ 34 :: rest)
          = 92 :: 117 :: 48 :: 48 :: hexDigit (b / 16) :: hexDigit (b % 16)
            :: (escBytes tl ++ 34 :: rest) from rfl]
      rw [parseStrBody.eq_def]
      simp [e0, e1, e2, ih]
      omega
    · rw [show ([b] : Bytes) ++ (escBytes tl ++ 34 :: rest)
          = b :: (escBytes tl ++ 34 :: rest) from rfl]
      rw [parseStrBody.eq_def]
      simp [h34, h92, ih]

theorem takeWhile_append_all {p : Nat → Bool} {l r : Bytes}
    (hl : ∀ b ∈ l, p b = true)
    (hr : ∀ b t, r = b :: t → p b = false) :
    (l ++ r).takeWhile p = l ∧ (l ++ r).dropWhile p = r := by
  induction l with
  | nil =>
    cases r with
    | nil => exact ⟨rfl, rfl⟩
    | cons b t =>
      simp [List.takeWhile_cons, List.dropWhile_cons, hr b t rfl]
  | cons a l ih =>
    have ha : p a = true := hl a (List.mem_cons_self _ _)
    obtain ⟨ht, hd⟩ := ih (fun b hb => hl b (List.mem_cons_of_mem _ hb))
    simp [List.takeWhile_cons, List.dropWhile_cons, ha, ht, hd]

theorem parseNatNum_natDec (m : Nat) (rest : Bytes)
    (hrest : ∀ b t, rest = b :: t → isDigitB b = false) :
    parseNatNum (natDec m ++ rest) = some (m, rest) := by
  have hall : ∀ b ∈ natDec m, isDigitB b = true := by
    intro b hb
    have := natDec_digits m b hb
    simp only [isDigitB, Bool.and_eq_true, decide_eq_true_eq]
    omega
  obtain ⟨ht, hd⟩ := takeWhile_append_all hall hrest
  unfold parseNatNum
  simp only [ht, hd]
  rw [if_neg (by simp [List.isEmpty_iff, natDec_ne_nil m]), decVal_natDec]

theorem skipWs_append_ws {l : Bytes} (hl : ∀ b ∈ l, isWsB b = true) (r : Bytes) :
    skipWs (l ++ r) = skipWs r := by
  induction l with
  | nil => rfl
  | cons a l ih =>
    have ha : isWsB a = true := hl a (List.mem_cons_self _ _)
    simp only [skipWs, List.cons_append, List.dropWhile_cons, ha, if_true]
    exact ih (fun b hb => hl b (List.mem_cons_of_mem _ hb))

theorem skipWs_cons_not_ws {b : Nat} (h : isWsB b = false) (r : Bytes) :
    skipWs (b :: r) = b :: r := by
  simp [skipWs, List.dropWhile_cons, h]

theorem nlOf_ws (ind : Option Nat) : ∀ b ∈ nlOf ind, isWsB b = true := by
  cases ind <;> simp [nlOf, isWsB]

theorem padOf_ws (ind : Option Nat) (lvl : Nat) : ∀ b ∈ padOf ind lvl, isWsB b = true := by
  cases ind with
  | none => simp [padOf]
  | some w =>
    intro b hb
    simp only [padOf] at hb
    rw [List.eq_of_mem_replicate hb]
    rfl

theorem spOf_ws (ind : Option Nat) : ∀ b ∈ spOf ind, isWsB b = true := by
  cases ind <;> simp [spOf, isWsB]

/-- Nothing after this byte string starts with a decimal digit (so a number
token just before it cannot be extended). -/
def DelimOk (r : Bytes) : Prop := ∀ b t, r = b :: t → isDigitB b = false

theorem delimOk_nil : DelimOk [] := fun _ _ h => by cases h

theorem isDigitB_false_of_ws {b : Nat} (h : isWsB b = true) : isDigitB b = false := by
  simp only [isWsB, Bool.or_eq_true, decide_eq_true_eq] at h
  rcases h with ((h | h) | h) | h <;> subst h <;> rfl

theorem delimOk_cons {b : Nat} (h : isDigitB b = false) (t : Bytes) : DelimOk (b :: t) := by
  intro b' t' h'
  injection h' with h1 _
  rw [← h1]
  exact h

theorem delimOk_ws_cons {mid : Bytes} (hmid : ∀ b ∈ mid, isWsB b = true)
    {c : Nat} (hc : isDigitB c = false) (rest : Bytes) : DelimOk (mid ++ c :: rest) := by
  cases mid with
  | nil => exact delimOk_cons hc rest
  | cons a l =>
    exact delimOk_cons (isDigitB_false_of_ws (hmid a (List.mem_cons_self _ _))) _

theorem parseVal_congr {x y : Bytes} (h : skipWs x = skipWs y) (fuel : Nat) :
    parseVal fuel x = parseVal fuel y := by
  cases fuel with
  | zero => rfl
  | succ fuel =>
    simp only [parseVal]
    rw [h]

theorem parseItems_congr {x y : Bytes} (h : skipWs x = skipWs y) (fuel : Nat) :
    parseItems fuel x = parseItems fuel y := by
  cases fuel with
  | zero => rfl
  | succ fuel =>
    simp only [parseItems]
    rw [h]

theorem parseFieldSeq_congr {x y : Bytes} (h : skipWs x = skipWs y) (fuel : Nat) :
    parseFieldSeq fuel x = parseFieldSeq fuel y := by
  cases fuel with
  | zero => rfl
  | succ fuel =>
    simp only [parseFieldSeq]
    rw [h]

theorem render_length_pos (ind : Option Nat) (lvl : Nat) (v : Json) :
    1 ≤ (render ind lvl v).length := by
  cases v with
  | null => simp [render]
  | bool b => cases b <;> simp [render]
  | num n =>
    simp only [render]
    unfold intDec
    split_ifs
    · simp
    · have := natDec_ne_nil (Int.toNat n)
      cases hx : natDec (Int.toNat n) with
      | nil => exact absurd hx this
      | cons a l => simp [hx]
  | str s => simp [render]
  | arr xs => cases xs <;> simp [render]
  | obj fs => cases fs <;> simp [render]

theorem isWsB_eq_false {b : Nat} (h1 : b ≠ 32) (h2 : b ≠ 9) (h3 : b ≠ 10) (h4 : b ≠ 13) :
    isWsB b = false := by
  simp [isWsB, h1, h2, h3, h4]

theorem render_starts (ind : Option Nat) (lvl : Nat) (v : Json) :
    ∃ b t, render ind lvl v = b :: t ∧ isWsB b = false ∧ b ≠ 93 ∧ b ≠ 125 := by
  cases v with
  | null =>
    exact ⟨110, [117, 108, 108], by simp [render], by decide, by decide, by decide⟩
  | bool b =>
    cases b
    · exact ⟨102, [97, 108, 115, 101], by simp [render], by decide, by decide, by decide⟩
    · exact ⟨116, [114, 117, 101], by simp [render], by decide, by decide, by decide⟩
  | num n =>
    simp only [render]
    unfold intDec
    split_ifs
    · exact ⟨45, natDec n.natAbs, rfl, by decide, by decide, by decide⟩
    · obtain ⟨b, t, hbt⟩ := List.exists_cons_of_ne_nil (natDec_ne_nil (Int.toNat n))
      have hb := natDec_digits (Int.toNat n) b (by rw [hbt]; exact List.mem_cons_self _ _)
      exact ⟨b, t, hbt, isWsB_eq_false (by omega) (by omega) (by omega) (by omega),
        by omega, by omega⟩
  | str s =>
    exact ⟨34, escBytes s ++ [34], by simp [render], by decide, by decide, by decide⟩
  | arr xs =>
    cases xs with
    | nil => exact ⟨91, [93], by simp [render], by decide, by decide, by decide⟩
    | cons x tl =>
      exact ⟨91, nlOf ind ++ renderItems ind (lvl + 1) (JList.cons x tl) ++ nlOf ind
        ++ padOf ind lvl ++ [93], by simp [render], by decide, by decide, by decide⟩
  | obj fs =>
    cases fs with
    | nil => exact ⟨123, [125], by simp [render], by decide, by decide, by decide⟩
    | cons k v tl =>
      exact ⟨123, nlOf ind ++ renderFields ind (lvl + 1) (JFields.cons k v tl) ++ nlOf ind
        ++ padOf ind lvl ++ [125], by simp [render], by decide, by decide, by decide⟩

/-- Main printer/parser inverse lemma, proved for every fuel at once: parsing
a rendered value (in either stringify mode) consumes exactly that value;
likewise for rendered array-item and object-field sequences up to their
closing bracket. -/
theorem parse_render_all : ∀ fuel : Nat,
    (∀ (ind : Option Nat) (lvl : Nat) (v : Json) (rest : Bytes),
      DelimOk rest → (render ind lvl v).length ≤ fuel →
      parseVal fuel (render ind lvl v ++ rest) = some (v, rest))
    ∧ (∀ (ind : Option Nat) (lvl : Nat) (xs : JList) (mid rest : Bytes),
      xs ≠ .nil → (∀ b ∈ mid, isWsB b = true) →
      (renderItems ind lvl xs).length + 1 ≤ fuel →
      parseItems fuel (renderItems ind lvl xs ++ (mid ++ 93 :: rest)) = some (xs, rest))
    ∧ (∀ (ind : Option Nat) (lvl : Nat) (fs : JFields) (mid rest : Bytes),
      fs ≠ .nil → (∀ b ∈ mid, isWsB b = true) →
      (renderFields ind lvl fs).length + 1 ≤ fuel →
      parseFieldSeq fuel (renderFields ind lvl fs ++ (mid ++ 125 :: rest)) = some (fs, rest)) := by
  intro fuel
  induction fuel with
  | zero =>
    refine ⟨?_, ?_, ?_⟩
    · intro ind lvl v rest _ hlen
      have := render_length_pos ind lvl v
      omega
    · intro ind lvl xs mid rest _ _ hlen
      omega
    · intro ind lvl fs mid rest _ _ hlen
      omega
  | succ fuel ih =>
    obtain ⟨ihA, ihB, ihC⟩ := ih
    refine ⟨?_, ?_, ?_⟩
    · intro ind lvl v rest hdelim hlen
      cases v with
      | null =>
        rw [show render ind lvl Json.null = [110, 117, 108, 108] from by simp [render]]
        simp only [parseVal, List.cons_append, List.nil_append]
        rw [skipWs_cons_not_ws (by decide)]
        simp
      | bool b =>
        cases b
        · rw [show render ind lvl (Json.bool false) = [102, 97, 108, 115, 101] from by
            simp [render]]
          simp only [parseVal, List.cons_append, List.nil_append]
          rw [skipWs_cons_not_ws (by decide)]
          simp
        · rw [show render ind lvl (Json.bool true) = [116, 114, 117, 101] from by simp [render]]
          simp only [parseVal, List.cons_append, List.nil_append]
          rw [skipWs_cons_not_ws (by decide)]
          simp
      | num n =>
        rw [show render ind lvl (Json.num n) = intDec n from by simp [render]]
        unfold intDec
        split_ifs with hn
        · have hnum := parseNatNum_natDec n.natAbs rest hdelim
          simp only [parseVal, List.cons_append]
          rw [skipWs_cons_not_ws (by decide)]
          simp [hnum, abs_of_neg hn]
        · obtain ⟨b, t, hbt⟩ := List.exists_cons_of_ne_nil (natDec_ne_nil n.toNat)
          have hdig := natDec_digits n.toNat b (by rw [hbt]; exact List.mem_cons_self _ _)
          obtain ⟨hb1, hb2⟩ := hdig
          have hnum := parseNatNum_natDec n.toNat rest hdelim
          have htn : ((n.toNat : Int)) = n := Int.toNat_of_nonneg (by omega)
          rw [hbt] at hnum ⊢
          simp only [List.cons_append] at hnum ⊢
          simp only [parseVal]
          interval_cases b <;>
            (rw [skipWs_cons_not_ws (by decide)]
             simp [hnum, htn, isDigitB])
      | str s =>
        rw [show render ind lvl (Json.str s) = 34 :: (escBytes s ++ [34]) from by simp [render]]
        simp only [parseVal, List.cons_append]
        rw [skipWs_cons_not_ws (by decide)]
        have hps := parseStrBody_escBytes s rest
        simp only [List.append_assoc, List.singleton_append]
        simp [hps]
      | arr xs =>
        cases xs with
        | nil =>
          rw [show render ind lvl (Json.arr .nil) = [91, 93] from by simp [render]] at hlen ⊢
          cases fuel with
          | zero => simp at hlen
          | succ f2 =>
            simp only [parseVal, List.cons_append, List.nil_append]
            rw [skipWs_cons_not_ws (by decide)]
            simp only [parseItems]
            rw [skipWs_cons_not_ws (by decide)]
            simp
        | cons x tl =>
          rw [show render ind lvl (Json.arr (JList.cons x tl))
              = 91 :: (nlOf ind ++ renderItems ind (lvl + 1) (JList.cons x tl) ++ nlOf ind
                ++ padOf ind lvl ++ [93]) from by simp [render]] at hlen ⊢
          simp only [parseVal, List.cons_append]
          rw [skipWs_cons_not_ws (by decide)]
          have hbound : (renderItems ind (lvl + 1) (JList.cons x tl)).length + 1 ≤ fuel := by
            simp only [List.length_cons, List.length_append] at hlen
            omega
          have hmid : ∀ b ∈ nlOf ind ++ padOf ind lvl, isWsB b = true := by
            intro b hbm
            rcases List.mem_append.mp hbm with hbm | hbm
            · exact nlOf_ws ind b hbm
            · exact padOf_ws ind lvl b hbm
          have hitems := ihB ind (lvl + 1) (JList.cons x tl) (nlOf ind ++ padOf ind lvl) rest
            (by intro hc; cases hc) hmid hbound
          have hfinal : parseItems fuel (nlOf ind
              ++ (renderItems ind (lvl + 1) (JList.cons x tl)
                ++ (nlOf ind ++ (padOf ind lvl ++ 93 :: rest)))) = some (JList.cons x tl, rest) := by
            rw [parseItems_congr (skipWs_append_ws (nlOf_ws ind) _) fuel]
            simpa [List.append_assoc] using hitems
          simp [hfinal]
      | obj fs =>
        cases fs with
        | nil =>
          rw [show render ind lvl (Json.obj .nil) = [123, 125] from by simp [render]] at hlen ⊢
          cases fuel with
          | zero => simp at hlen
          | succ f2 =>
            simp only [parseVal, List.cons_append, List.nil_append]
            rw [skipWs_cons_not_ws (by decide)]
            simp only [parseFieldSeq]
            rw [skipWs_cons_not_ws (by decide)]
            simp
        | cons k v tl =>
          rw [show render ind lvl (Json.obj (JFields.cons k v tl))
              = 123 :: (nlOf ind ++ renderFields ind (lvl + 1) (JFields.cons k v tl) ++ nlOf ind
                ++ padOf ind lvl ++ [125]) from by simp [render]] at hlen ⊢
          simp only [parseVal, List.cons_append]
          rw [skipWs_cons_not_ws (by decide)]
          have hbound : (renderFields ind (lvl + 1) (JFields.cons k v tl)).length + 1 ≤ fuel := by
            simp only [List.length_cons, List.length_append] at hlen
            omega
          have hmid : ∀ b ∈ nlOf ind ++ padOf ind lvl, isWsB b = true := by
            intro b hbm
            rcases List.mem_append.mp hbm with hbm | hbm
            · exact nlOf_ws ind b hbm
            · exact padOf_ws ind lvl b hbm
          have hflds := ihC ind (lvl + 1) (JFields.cons k v tl) (nlOf ind ++ padOf ind lvl) rest
            (by intro hc; cases hc) hmid hbound
          have hfinal : parseFieldSeq fuel (nlOf ind
              ++ (renderFields ind (lvl + 1) (JFields.cons k v tl)
                ++ (nlOf ind ++ (padOf ind lvl ++ 125 :: rest))))
              = some (JFields.cons k v tl, rest) := by
            rw [parseFieldSeq_congr (skipWs_append_ws (nlOf_ws ind) _) fuel]
            simpa [List.append_assoc] using hflds
          simp [hfinal]
    · intro ind lvl xs mid rest hne hmidws hlen
      cases xs with
      | nil => exact absurd rfl hne
      | cons x tl =>
        obtain ⟨b0, t0, hbt, hb0ws, hb093, _⟩ := render_starts ind lvl x
        have hlp := render_length_pos ind lvl x
        cases tl with
        | nil =>
          rw [show renderItems ind lvl (JList.cons x .nil)
              = padOf ind lvl ++ render ind lvl x from by simp [renderItems]] at hlen ⊢
          simp only [parseItems, List.append_assoc]
          rw [skipWs_append_ws (padOf_ws ind lvl)]
          rw [hbt, List.cons_append]
          rw [skipWs_cons_not_ws hb0ws]
          have hval : parseVal fuel (b0 :: (t0 ++ (mid ++ 93 :: rest)))
              = some (x, mid ++ 93 :: rest) := by
            rw [show b0 :: (t0 ++ (mid ++ 93 :: rest))
                = render ind lvl x ++ (mid ++ 93 :: rest) from by rw [hbt]; simp]
            exact ihA ind lvl x _ (delimOk_ws_cons hmidws (by decide) rest)
              (by simp only [List.length_append] at hlen; omega)
          have hskip2 : skipWs (mid ++ 93 :: rest) = 93 :: rest := by
            rw [skipWs_append_ws hmidws, skipWs_cons_not_ws (by decide)]
          simp [hb093, hval, hskip2]
        | cons y tl2 =>
          rw [show renderItems ind lvl (JList.cons x (JList.cons y tl2))
              = padOf ind lvl ++ render ind lvl x
                ++ 44 :: (nlOf ind ++ renderItems ind lvl (JList.cons y tl2)) from by
            simp [renderItems]] at hlen ⊢
          simp only [parseItems, List.append_assoc, List.cons_append]
          rw [skipWs_append_ws (padOf_ws ind lvl)]
          rw [hbt, List.cons_append]
          rw [skipWs_cons_not_ws hb0ws]
          have hval : parseVal fuel (b0 :: (t0
              ++ (44 :: (nlOf ind ++ (renderItems ind lvl (JList.cons y tl2)
                ++ (mid ++ 93 :: rest))))))
              = some (x, 44 :: (nlOf ind ++ (renderItems ind lvl (JList.cons y tl2)
                ++ (mid ++ 93 :: rest)))) := by
            rw [show b0 :: (t0 ++ (44 :: (nlOf ind ++ (renderItems ind lvl (JList.cons y tl2)
                ++ (mid ++ 93 :: rest)))))
                = render ind lvl x ++ (44 :: (nlOf ind
                  ++ (renderItems ind lvl (JList.cons y tl2) ++ (mid ++ 93 :: rest))))
                from by rw [hbt]; simp]
            exact ihA ind lvl x _ (delimOk_cons (by decide) _)
              (by simp only [List.length_append, List.length_cons] at hlen; omega)
          have hrec : parseItems fuel (nlOf ind ++ (renderItems ind lvl (JList.cons y tl2)
              ++ (mid ++ 93 :: rest))) = some (JList.cons y tl2, rest) := by
            rw [parseItems_congr (skipWs_append_ws (nlOf_ws ind) _) fuel]
            exact ihB ind lvl (JList.cons y tl2) mid rest (by intro hc; cases hc) hmidws
              (by simp only [List.length_append, List.length_cons] at hlen; omega)
          have hskip2 : skipWs (44 :: (nlOf ind ++ (renderItems ind lvl (JList.cons y tl2)
              ++ (mid ++ 93 :: rest))))
              = 44 :: (nlOf ind ++ (renderItems ind lvl (JList.cons y tl2)
                ++ (mid ++ 93 :: rest))) := skipWs_cons_not_ws (by decide) _
          simp [hb093, hval, hskip2, hrec]
    · intro ind lvl fs mid rest hne hmidws hlen
      cases fs with
      | nil => exact absurd rfl hne
      | cons k v tl =>
        have hlp := render_length_pos ind lvl v
        cases tl with
        | nil =>
          rw [show renderFields ind lvl (JFields.cons k v .nil)
              = padOf ind lvl ++ 34 :: (escBytes k ++ [34])
                ++ 58 :: (spOf ind ++ render ind lvl v) from by simp [renderFields]] at hlen ⊢
          simp only [parseFieldSeq, List.append_assoc, List.cons_append,
            List.singleton_append]
          rw [skipWs_append_ws (padOf_ws ind lvl)]
          rw [skipWs_cons_not_ws (by decide)]
          have hkey := parseStrBody_escBytes k
            (58 :: (spOf ind ++ (render ind lvl v ++ (mid ++ 125 :: rest))))
          have hval : parseVal fuel (spOf ind ++ (render ind lvl v ++ (mid ++ 125 :: rest)))
              = some (v, mid ++ 125 :: rest) := by
            rw [parseVal_congr (skipWs_append_ws (spOf_ws ind) _) fuel]
            exact ihA ind lvl v _ (delimOk_ws_cons hmidws (by decide) rest)
              (by simp only [List.length_append, List.length_cons] at hlen; omega)
          have hskip3 : skipWs (mid ++ 125 :: rest) = 125 :: rest := by
            rw [skipWs_append_ws hmidws, skipWs_cons_not_ws (by decide)]
          have hskip58 : skipWs (58 :: (spOf ind ++ (render ind lvl v ++ (mid ++ 125 :: rest))))
              = 58 :: (spOf ind ++ (render ind lvl v ++ (mid ++ 125 :: rest))) :=
            skipWs_cons_not_ws (by decide) _
          simp [hkey, hval, hskip3, hskip58]
        | cons k2 v2 tl2 =>
          rw [show renderFields ind lvl (JFields.cons k v (JFields.cons k2 v2 tl2))
              = padOf ind lvl ++ 34 :: (escBytes k ++ [34])
                ++ 58 :: (spOf ind ++ render ind lvl v)
                ++ 44 :: (nlOf ind ++ renderFields ind lvl (JFields.cons k2 v2 tl2)) from by
            simp [renderFields]] at hlen ⊢
          simp only [parseFieldSeq, List.append_assoc, List.cons_append,
            List.singleton_append]
          rw [skipWs_append_ws (padOf_ws ind lvl)]
          rw [skipWs_cons_not_ws (by decide)]
          have hkey := parseStrBody_escBytes k
            (58 :: (spOf ind ++ (render ind lvl v
              ++ (44 :: (nlOf ind ++ (renderFields ind lvl (JFields.cons k2 v2 tl2)
                ++ (mid ++ 125 :: rest)))))))
          have hval : parseVal fuel (spOf ind ++ (render ind lvl v
              ++ (44 :: (nlOf ind ++ (renderFields ind lvl (JFields.cons k2 v2 tl2)
                ++ (mid ++ 125 :: rest))))))
              = some (v, 44 :: (nlOf ind ++ (renderFields ind lvl (JFields.cons k2 v2 tl2)
                ++ (mid ++ 125 :: rest)))) := by
            rw [parseVal_congr (skipWs_append_ws (spOf_ws ind) _) fuel]
            exact ihA ind lvl v _ (delimOk_cons (by decide) _)
              (by simp only [List.length_append, List.length_cons] at hlen; omega)
          have hrec : parseFieldSeq fuel (nlOf ind
              ++ (renderFields ind lvl (JFields.cons k2 v2 tl2) ++ (mid ++ 125 :: rest)))
              = some (JFields.cons k2 v2 tl2, rest) := by
            rw [parseFieldSeq_congr (skipWs_append_ws (nlOf_ws ind) _) fuel]
            exact ihC ind lvl (JFields.cons k2 v2 tl2) mid rest (by intro hc; cases hc) hmidws
              (by simp only [List.length_append, List.length_cons] at hlen; omega)
          have hskip58 : skipWs (58 :: (spOf ind ++ (render ind lvl v
              ++ (44 :: (nlOf ind ++ (renderFields ind lvl (JFields.cons k2 v2 tl2)
                ++ (mid ++ 125 :: rest)))))))
              = 58 :: (spOf ind ++ (render ind lvl v
                ++ (44 :: (nlOf ind ++ (renderFields ind lvl (JFields.cons k2 v2 tl2)
                  ++ (mid ++ 125 :: rest)))))) :=
            skipWs_cons_not_ws (by decide) _
          have hskip44 : skipWs (44 :: (nlOf ind
              ++ (renderFields ind lvl (JFields.cons k2 v2 tl2) ++ (mid ++ 125 :: rest))))
              = 44 :: (nlOf ind ++ (renderFields ind lvl (JFields.cons k2 v2 tl2)
                ++ (mid ++ 125 :: rest))) :=
            skipWs_cons_not_ws (by decide) _
          simp [hkey, hval, hrec, hskip58, hskip44]

/-- `JSON.parse` inverts compact `JSON.stringify`. -/
theorem parseJson_renderC (v : Json) : parseJson (renderC v) = some v := by
  unfold parseJson renderC
  have h := (parse_render_all ((render none 0 v).length + 1)).1 none 0 v [] delimOk_nil
    (by omega)
  rw [List.append_nil] at h
  rw [h]
  simp [skipWs]

/-- `JSON.parse` inverts indented `JSON.stringify(v, null, 2)`. -/
theorem parseJson_renderP (v : Json) : parseJson (renderP v) = some v := by
  unfold parseJson renderP
  have h := (parse_render_all ((render (some 2) 0 v).length + 1)).1 (some 2) 0 v [] delimOk_nil
    (by omega)
  rw [List.append_nil] at h
  rw [h]
  simp [skipWs]

theorem hexDigit_lt256 {n : Nat} (h : n < 16) : hexDigit n < 256 := by
  unfold hexDigit
  split_ifs <;> omega

theorem escByte_lt256 {b : Nat} (h : b < 256) : ∀ c ∈ escByte b, c < 256 := by
  unfold escByte
  split_ifs with h34 h92 h8 h9 h10 h12 h13 hlt <;> intro c hc
  · simp at hc; omega
  · simp at hc; omega
  · simp at hc; omega
  · simp at hc; omega
  · simp at hc; omega
  · simp at hc; omega
  · simp at hc; omega
  · have d1 := hexDigit_lt256 (show b / 16 < 16 by omega)
    have d2 := hexDigit_lt256 (show b % 16 < 16 by omega)
    simp at hc
    rcases hc with hc | hc | hc | hc | hc <;> omega
  · simp at hc; omega

theorem escBytes_lt256 {s : Bytes} (h : ∀ b ∈ s, b < 256) : ∀ c ∈ escBytes s, c < 256 := by
  induction s with
  | nil =>
    intro c hc
    simp [escBytes] at hc
  | cons b tl ih =>
    intro c hc
    rw [show escBytes (b :: tl) = escByte b ++ escBytes tl from by simp [escBytes]] at hc
    rcases List.mem_append.mp hc with hc | hc
    · exact escByte_lt256 (h b (List.mem_cons_self _ _)) c hc
    · exact ih (fun x hx => h x (List.mem_cons_of_mem _ hx)) c hc

theorem natDec_lt256 (m : Nat) : ∀ b ∈ natDec m, b < 256 := by
  intro b hb
  have := natDec_digits m b hb
  omega

theorem intDec_lt256 (n : Int) : ∀ b ∈ intDec n, b < 256 := by
  unfold intDec
  split_ifs <;> intro b hb
  · simp at hb
    rcases hb with hb | hb
    · omega
    · have := natDec_digits _ b hb
      omega
  · exact natDec_lt256 _ b hb

theorem nlOf_lt256 (ind : Option Nat) : ∀ b ∈ nlOf ind, b < 256 := by
  cases ind <;> simp [nlOf]

theorem padOf_lt256 (ind : Option Nat) (lvl : Nat) : ∀ b ∈ padOf ind lvl, b < 256 := by
  cases ind with
  | none => simp [padOf]
  | some w =>
    intro b hb
    simp only [padOf] at hb
    rw [List.eq_of_mem_replicate hb]
    omega

theorem spOf_lt256 (ind : Option Nat) : ∀ b ∈ spOf ind, b < 256 := by
  cases ind <;> simp [spOf]

mutual
theorem render_lt256 (ind : Option Nat) (lvl : Nat) (v : Json) (hwf : v.wf = true) :
    ∀ b ∈ render ind lvl v, b < 256 := by
  cases v with
  | null =>
    intro b hb
    rw [show render ind lvl Json.null = [110, 117, 108, 108] from by simp [render]] at hb
    simp only [List.mem_cons, List.not_mem_nil, or_false] at hb
    omega
  | bool c =>
    intro b hb
    cases c
    · rw [show render ind lvl (Json.bool false) = [102, 97, 108, 115, 101] from by
        simp [render]] at hb
      simp only [List.mem_cons, List.not_mem_nil, or_false] at hb
      omega
    · rw [show render ind lvl (Json.bool true) = [116, 114, 117, 101] from by
        simp [render]] at hb
      simp only [List.mem_cons, List.not_mem_nil, or_false] at hb
      omega
  | num n =>
    intro b hb
    rw [show render ind lvl (Json.num n) = intDec n from by simp [render]] at hb
    exact intDec_lt256 n b hb
  | str s =>
    intro b hb
    rw [show render ind lvl (Json.str s) = 34 :: (escBytes s ++ [34]) from by
      simp [render]] at hb
    have hs : ∀ c ∈ s, c < 256 := by
      intro c hcm
      have hwfs := hwf
      simp only [Json.wf, List.all_eq_true, decide_eq_true_eq] at hwfs
      exact hwfs c hcm
    simp only [List.mem_cons, List.mem_append, List.not_mem_nil, or_false, or_assoc] at hb
    rcases hb with hb | hb | hb
    · omega
    · exact escBytes_lt256 hs b hb
    · omega
  | arr xs =>
    intro b hb
    cases xs with
    | nil =>
      rw [show render ind lvl (Json.arr .nil) = [91, 93] from by simp [render]] at hb
      simp only [List.mem_cons, List.not_mem_nil, or_false] at hb
      omega
    | cons x tl =>
      rw [show render ind lvl (Json.arr (JList.cons x tl))
          = 91 :: (nlOf ind ++ renderItems ind (lvl + 1) (JList.cons x tl) ++ nlOf ind
            ++ padOf ind lvl ++ [93]) from by simp [render]] at hb
      have hwf2 : (JList.cons x tl).wf = true := by
        simpa [Json.wf] using hwf
      simp only [List.mem_cons, List.mem_append, List.not_mem_nil, or_false, or_assoc] at hb
      rcases hb with hb | hb | hb | hb | hb | hb
      · omega
      · exact nlOf_lt256 ind b hb
      · exact renderItems_lt256 ind (lvl + 1) (JList.cons x tl) hwf2 b hb
      · exact nlOf_lt256 ind b hb
      · exact padOf_lt256 ind lvl b hb
      · omega
  | obj fs =>
    intro b hb
    cases fs with
    | nil =>
      rw [show render ind lvl (Json.obj .nil) = [123, 125] from by simp [render]] at hb
      simp only [List.mem_cons, List.not_mem_nil, or_false] at hb
      omega
    | cons k v2 tl =>
      rw [show render ind lvl (Json.obj (JFields.cons k v2 tl))
          = 123 :: (nlOf ind ++ renderFields ind (lvl + 1) (JFields.cons k v2 tl) ++ nlOf ind
            ++ padOf ind lvl ++ [125]) from by simp [render]] at hb
      have hwf2 : (JFields.cons k v2 tl).wf = true := by
        simpa [Json.wf] using hwf
      simp only [List.mem_cons, List.mem_append, List.not_mem_nil, or_false, or_assoc] at hb
      rcases hb with hb | hb | hb | hb | hb | hb
      · omega
      · exact nlOf_lt256 ind b hb
      · exact renderFields_lt256 ind (lvl + 1) (JFields.cons k v2 tl) hwf2 b hb
      · exact nlOf_lt256 ind b hb
      · exact padOf_lt256 ind lvl b hb
      · omega

theorem renderItems_lt256 (ind : Option Nat) (lvl : Nat) (xs : JList) (hwf : xs.wf = true) :
    ∀ b ∈ renderItems ind lvl xs, b < 256 := by
  cases xs with
  | nil =>
    intro b hb
    rw [show renderItems ind lvl JList.nil = [] from by simp [renderItems]] at hb
    cases hb
  | cons x tl =>
    have hwfx : x.wf = true := by
      have hw := hwf
      simp only [JList.wf, Bool.and_eq_true] at hw
      exact hw.1
    have hwftl : tl.wf = true := by
      have hw := hwf
      simp only [JList.wf, Bool.and_eq_true] at hw
      exact hw.2
    cases tl with
    | nil =>
      intro b hb
      rw [show renderItems ind lvl (JList.cons x .nil)
          = padOf ind lvl ++ render ind lvl x from by simp [renderItems]] at hb
      simp only [List.mem_append, or_assoc] at hb
      rcases hb with hb | hb
      · exact padOf_lt256 ind lvl b hb
      · exact render_lt256 ind lvl x hwfx b hb
    | cons y tl2 =>
      intro b hb
      rw [show renderItems ind lvl (JList.cons x (JList.cons y tl2))
          = padOf ind lvl ++ render ind lvl x
            ++ 44 :: (nlOf ind ++ renderItems ind lvl (JList.cons y tl2)) from by
        simp [renderItems]] at hb
      simp only [List.mem_cons, List.mem_append, or_assoc] at hb
      rcases hb with hb | hb | hb | hb | hb
      · exact padOf_lt256 ind lvl b hb
      · exact render_lt256 ind lvl x hwfx b hb
      · omega
      · exact nlOf_lt256 ind b hb
      · exact renderItems_lt256 ind lvl (JList.cons y tl2) hwftl b hb

theorem renderFields_lt256 (ind : Option Nat) (lvl : Nat) (fs : JFields) (hwf : fs.wf = true) :
    ∀ b ∈ renderFields ind lvl fs, b < 256 := by
  cases fs with
  | nil =>
    intro b hb
    rw [show renderFields ind lvl JFields.nil = [] from by simp [renderFields]] at hb
    cases hb
  | cons k v tl =>
    have hwfk : ∀ c ∈ k, c < 256 := by
      have hw := hwf
      simp only [JFields.wf, Bool.and_eq_true, List.all_eq_true, decide_eq_true_eq] at hw
      exact hw.1.1
    have hwfv : v.wf = true := by
      have hw := hwf
      simp only [JFields.wf, Bool.and_eq_true] at hw
      exact hw.1.2
    have hwftl : tl.wf = true := by
      have hw := hwf
      simp only [JFields.wf, Bool.and_eq_true] at hw
      exact hw.2
    cases tl with
    | nil =>
      intro b hb
      rw [show renderFields ind lvl (JFields.cons k v .nil)
          = padOf ind lvl ++ 34 :: (escBytes k ++ [34])
            ++ 58 :: (spOf ind ++ render ind lvl v) from by simp [renderFields]] at hb
      simp only [List.mem_cons, List.mem_append, List.not_mem_nil, or_false, or_assoc] at hb
      rcases hb with hb | hb | hb | hb | hb | hb | hb
      · exact padOf_lt256 ind lvl b hb
      · omega
      · exact escBytes_lt256 hwfk b hb
      · omega
      · omega
      · exact spOf_lt256 ind b hb
      · exact render_lt256 ind lvl v hwfv b hb
    | cons k2 v2 tl2 =>
      intro b hb
      rw [show renderFields ind lvl (JFields.cons k v (JFields.cons k2 v2 tl2))
          = padOf ind lvl ++ 34 :: (escBytes k ++ [34])
            ++ 58 :: (spOf ind ++ render ind lvl v)
            ++ 44 :: (nlOf ind ++ renderFields ind lvl (JFields.cons k2 v2 tl2)) from by
        simp [renderFields]] at hb
      simp only [List.mem_cons, List.mem_append, List.not_mem_nil, or_false, or_assoc] at hb
      rcases hb with hb | hb | hb | hb | hb | hb | hb | hb | hb | hb
      · exact padOf_lt256 ind lvl b hb
      · omega
      · exact escBytes_lt256 hwfk b hb
      · omega
      · omega
      · exact spOf_lt256 ind b hb
      · exact render_lt256 ind lvl v hwfv b hb
      · omega
      · exact nlOf_lt256 ind b hb
      · exact renderFields_lt256 ind lvl (JFields.cons k2 v2 tl2) hwftl b hb
end

theorem renderC_lt256 (v : Json) (h : v.wf = true) : ∀ b ∈ renderC v, b < 256 :=
  render_lt256 none 0 v h

/-- Truthiness of an environment variable value as a JS condition sees it:
`undefined` (absent) and the empty string are falsy. -/
def truthy : Option Bytes → Bool
  | none => false
  | some s => !s.isEmpty

/-- The environment variables read or written by `globalSetup`
(`src/setup/global-setup.ts`). -/
structure SetupEnv where
  LT_BUILD_ID : Option Bytes
  HE_BUILD_ID : Option Bytes
  GITHUB_RUN_NUMBER : Option Bytes
  AUTH_STATE : Option Bytes

/-- The login API response as observed by `globalSetup`: `response.ok()`,
`response.status()`, `response.statusText()`. -/
structure LoginResponse where
  ok : Bool
  status : Nat
  statusText : Bytes

/-- The state `globalSetup` mutates: `process.env`, the `.auth` directory,
and the `.auth/user.json` file content. -/
structure SetupWorld where
  env : SetupEnv
  authDirExists : Bool
  authFile : Option Bytes

/-- Outcome of one `globalSetup` run: the thrown error message, if any, and
the world afterwards (mutations before a throw persist). -/
structure SetupOutcome where
  err : Option Bytes
  world : SetupWorld

/-- Embedded from `src/setup/global-setup.ts` lines 16-18: the value assigned
to `LT_BUILD_ID` when it is unset: `process.env.HE_BUILD_ID ||
process.env.GITHUB_RUN_NUMBER || Date.now().toString()`. -/
def buildIdSource (env : SetupEnv) (now : Nat) : Bytes :=
  if truthy env.HE_BUILD_ID then env.HE_BUILD_ID.getD []
  else if truthy env.GITHUB_RUN_NUMBER then env.GITHUB_RUN_NUMBER.getD []
  else natDec now

/-- Embedded from `src/setup/global-setup.ts` lines 15-19: assign a stable
build id only when `LT_BUILD_ID` is not already set (JS truthiness). -/
def envAfterBuildId (env : SetupEnv) (now : Nat) : SetupEnv :=
  if truthy env.LT_BUILD_ID then env
  else { env with LT_BUILD_ID := some (buildIdSource env now) }

/-- Embedded from `src/setup/global-setup.ts` line 48: the thrown message
`Login API failed: status statusText`. -/
def loginFailMsg (resp : LoginResponse) : Bytes :=
  strBytes "Login API failed: " ++ natDec resp.status ++ [32] ++ resp.statusText

/-- Embedded from `src/setup/global-setup.ts` (`globalSetup`): set
`LT_BUILD_ID` if needed, ensure the `.auth` directory, call the login API; on
a non-ok response throw (leaving the auth state untouched); otherwise capture
the storage state `state`, save it base64-encoded in `AUTH_STATE`
(`Buffer.from(JSON.stringify(state)).toString('base64')`, line 61) and write
it pretty-printed to `.auth/user.json` (`JSON.stringify(state, null, 2)`,
line 64). -/
def globalSetup (now : Nat) (resp : LoginResponse) (state : Json) (w : SetupWorld) :
    SetupOutcome :=
  if resp.ok = false then
    { err := some (loginFailMsg resp),
      world := { w with env := envAfterBuildId w.env now, authDirExists := true } }
  else
    { err := none,
      world :=
        { env := { envAfterBuildId w.env now with
                   AUTH_STATE := some (b64Enc (renderC state)) },
          authDirExists := true,
          authFile := some (renderP state) } }

/-- Claim C8: when the login API response is not ok, `globalSetup` throws an
error whose message contains the response status, and neither `AUTH_STATE`
nor `.auth/user.json` is written (both are exactly as before the call). -/
theorem claim_C8_login_failure (now : Nat) (resp : LoginResponse) (state : Json)
    (w : SetupWorld) (hok : resp.ok = false) :
    (∃ pre post, (globalSetup now resp state w).err
        = some (pre ++ natDec resp.status ++ post))
    ∧ (globalSetup now resp state w).world.env.AUTH_STATE = w.env.AUTH_STATE
    ∧ (globalSetup now resp state w).world.authFile = w.authFile := by
  unfold globalSetup
  rw [if_pos hok]
  refine ⟨⟨strBytes "Login API failed: ", [32] ++ resp.statusText, ?_⟩, ?_, rfl⟩
  · simp [loginFailMsg, List.append_assoc]
  · show (envAfterBuildId w.env now).AUTH_STATE = w.env.AUTH_STATE
    unfold envAfterBuildId
    split_ifs <;> rfl

/-- Witness for claim C8: a concrete 401 response on an empty world. -/
theorem claim_C8_login_failure_witness :
    (∃ pre post,
      (globalSetup 1700 ⟨false, 401, strBytes "Unauthorized"⟩ Json.null
          ⟨⟨none, none, none, none⟩, false, none⟩).err
        = some (pre ++ natDec 401 ++ post))
    ∧ (globalSetup 1700 ⟨false, 401, strBytes "Unauthorized"⟩ Json.null
        ⟨⟨none, none, none, none⟩, false, none⟩).world.env.AUTH_STATE = none
    ∧ (globalSetup 1700 ⟨false, 401, strBytes "Unauthorized"⟩ Json.null
        ⟨⟨none, none, none, none⟩, false, none⟩).world.authFile = none :=
  claim_C8_login_failure 1700 ⟨false, 401, strBytes "Unauthorized"⟩ Json.null
    ⟨⟨none, none, none, none⟩, false, none⟩ rfl

/-- Claim C9: `globalSetup` never overwrites a set (truthy, per the JS `!`
and `||` semantics of the source) `LT_BUILD_ID`; when it is unset it is
assigned from `HE_BUILD_ID` if set, else `GITHUB_RUN_NUMBER` if set, else the
decimal timestamp string. -/
theorem claim_C9_build_id (now : Nat) (resp : LoginResponse) (state : Json) (w : SetupWorld) :
    (truthy w.env.LT_BUILD_ID = true →
      (globalSetup now resp state w).world.env.LT_BUILD_ID = w.env.LT_BUILD_ID)
    ∧ (truthy w.env.LT_BUILD_ID = false →
      (globalSetup now resp state w).world.env.LT_BUILD_ID
        = some (buildIdSource w.env now)) := by
  constructor
  · intro h
    unfold globalSetup
    split_ifs with hok
    · show (envAfterBuildId w.env now).LT_BUILD_ID = w.env.LT_BUILD_ID
      unfold envAfterBuildId
      rw [if_pos h]
    · show (envAfterBuildId w.env now).LT_BUILD_ID = w.env.LT_BUILD_ID
      unfold envAfterBuildId
      rw [if_pos h]
  · intro h
    unfold globalSetup
    split_ifs with hok
    · show (envAfterBuildId w.env now).LT_BUILD_ID = some (buildIdSource w.env now)
      unfold envAfterBuildId
      rw [if_neg (by rw [h]; exact fun hc => nomatch hc)]
    · show (envAfterBuildId w.env now).LT_BUILD_ID = some (buildIdSource w.env now)
      unfold envAfterBuildId
      rw [if_neg (by rw [h]; exact fun hc => nomatch hc)]

/-- Witness for claim C9: a set `LT_BUILD_ID` survives a run; an unset one is
filled from the set `HE_BUILD_ID`. -/
theorem claim_C9_build_id_witness :
    (globalSetup 5 ⟨true, 200, []⟩ Json.null
      ⟨⟨some (strBytes "local"), none, none, none⟩, false, none⟩).world.env.LT_BUILD_ID
      = some (strBytes "local")
    ∧ (globalSetup 5 ⟨true, 200, []⟩ Json.null
        ⟨⟨none, some (strBytes "he-123"), none, none⟩, false, none⟩).world.env.LT_BUILD_ID
      = some (buildIdSource ⟨none, some (strBytes "he-123"), none, none⟩ 5) :=
  ⟨(claim_C9_build_id 5 ⟨true, 200, []⟩ Json.null
      ⟨⟨some (strBytes "local"), none, none, none⟩, false, none⟩).1 (by decide),
   (claim_C9_build_id 5 ⟨true, 200, []⟩ Json.null
      ⟨⟨none, some (strBytes "he-123"), none, none⟩, false, none⟩).2 (by decide)⟩

/-- Claim C10: after a successful `globalSetup` run, `AUTH_STATE` and
`.auth/user.json` encode the same storage state: base64-decoding `AUTH_STATE`
and parsing the result as JSON yields exactly the captured state, as does
parsing the file content, so the two parses are equal. -/
theorem claim_C10_auth_state_roundtrip (now : Nat) (resp : LoginResponse) (state : Json)
    (w : SetupWorld) (hok : resp.ok = true) (hwf : state.wf = true) :
    (globalSetup now resp state w).err = none
    ∧ ((globalSetup now resp state w).world.env.AUTH_STATE.bind
        (fun bs => (b64Dec bs).bind parseJson)) = some state
    ∧ ((globalSetup now resp state w).world.authFile.bind parseJson) = some state := by
  unfold globalSetup
  rw [if_neg (by simp [hok])]
  refine ⟨rfl, ?_, ?_⟩
  · show (some (b64Enc (renderC state))).bind (fun bs => (b64Dec bs).bind parseJson)
      = some state
    rw [Option.some_bind, b64Dec_b64Enc _ (renderC_lt256 state hwf), Option.some_bind,
      parseJson_renderC]
  · show (some (renderP state)).bind parseJson = some state
    rw [Option.some_bind, parseJson_renderP]

/-- Witness for claim C10: a concrete storage-state-shaped JSON value
round-trips through both persisted forms. -/
theorem claim_C10_auth_state_roundtrip_witness :
    (globalSetup 9 ⟨true, 200, []⟩
        (Json.obj (JFields.cons (strBytes "cookies") (Json.arr JList.nil)
          (JFields.cons (strBytes "origins") (Json.arr JList.nil) JFields.nil)))
        ⟨⟨none, none, none, none⟩, false, none⟩).err = none
    ∧ ((globalSetup 9 ⟨true, 200, []⟩
        (Json.obj (JFields.cons (strBytes "cookies") (Json.arr JList.nil)
          (JFields.cons (strBytes "origins") (Json.arr JList.nil) JFields.nil)))
        ⟨⟨none, none, none, none⟩, false, none⟩).world.env.AUTH_STATE.bind
          (fun bs => (b64Dec bs).bind parseJson))
      = some (Json.obj (JFields.cons (strBytes "cookies") (Json.arr JList.nil)
          (JFields.cons (strBytes "origins") (Json.arr JList.nil) JFields.nil)))
    ∧ ((globalSetup 9 ⟨true, 200, []⟩
        (Json.obj (JFields.cons (strBytes "cookies") (Json.arr JList.nil)
          (JFields.cons (strBytes "origins") (Json.arr JList.nil) JFields.nil)))
        ⟨⟨none, none, none, none⟩, false, none⟩).world.authFile.bind parseJson)
      = some (Json.obj (JFields.cons (strBytes "cookies") (Json.arr JList.nil)
          (JFields.cons (strBytes "origins") (Json.arr JList.nil) JFields.nil))) :=
  claim_C10_auth_state_roundtrip 9 ⟨true, 200, []⟩
    (Json.obj (JFields.cons (strBytes "cookies") (Json.arr JList.nil)
      (JFields.cons (strBytes "origins") (Json.arr JList.nil) JFields.nil)))
    ⟨⟨none, none, none, none⟩, false, none⟩ rfl (by decide)

end Tms
